import Mathlib

/-!
Shallow embedding of the personal-finances accounting engine
(`src/Account.ts`, `src/Entry.ts`, `src/index.ts`).

Modelling conventions:
* JavaScript `Date` values are modelled by `DateJS`, a pair of a calendar
  month index and an intra-month offset, lexicographically ordered (JS dates
  compare by their timestamp, which this order reflects; `date-fns`
  month arithmetic acts on the month component).
* JavaScript numbers used as monetary values are modelled by `Int`
  (the engine only adds and subtracts them).
* JavaScript reference identity (`===`) on account objects is modelled by
  structural equality; all accounts flowing through the engine are nodes of
  one tree built by `makeAccountTree`.
* In-place mutation (pushing a child into a found node's `children`) is
  rendered functionally by rebuilding the tree along the find path.
* `Map` objects keyed by period/currency are modelled as association lists
  built in the same iteration order as the source.
-/

/-- Calendar instant: month index plus offset inside the month,
ordered lexicographically like JS timestamps. -/
structure DateJS where
  month : Int
  frac : Int
deriving DecidableEq, Repr

/-- Strict order on dates (what JS `<` computes on timestamps). -/
def dateLt (a b : DateJS) : Prop :=
  a.month < b.month ∨ (a.month = b.month ∧ a.frac < b.frac)

/-- Non-strict order on dates (what JS `>=` computes, flipped). -/
def dateLe (a b : DateJS) : Prop :=
  a.month < b.month ∨ (a.month = b.month ∧ a.frac ≤ b.frac)

instance (a b : DateJS) : Decidable (dateLe a b) := by unfold dateLe; infer_instance

instance (a b : DateJS) : Decidable (dateLt a b) := by unfold dateLt; infer_instance

/-- JS `a < b` on dates, as the primitive boolean timestamp comparison. -/
def dateLtB (a b : DateJS) : Bool := decide (dateLt a b)

/-- JS `a >= b` on dates, as the primitive boolean timestamp comparison. -/
def dateGeB (a b : DateJS) : Bool := decide (dateLe b a)

theorem dateLtB_iff (a b : DateJS) : dateLtB a b = true ↔ dateLt a b := by
  simp [dateLtB]

theorem dateGeB_iff (a b : DateJS) : dateGeB a b = true ↔ dateLe b a := by
  simp [dateGeB]

theorem not_dateLt_iff (a b : DateJS) : ¬ dateLt a b ↔ dateLe b a := by
  unfold dateLt dateLe; omega

theorem dateLe_refl (a : DateJS) : dateLe a a := Or.inr ⟨rfl, le_refl _⟩

theorem dateLe_trans {a b c : DateJS} (h1 : dateLe a b) (h2 : dateLe b c) : dateLe a c := by
  rcases h1 with h1 | ⟨h1, h1f⟩ <;> rcases h2 with h2 | ⟨h2, h2f⟩ <;>
    [exact Or.inl (h1.trans h2); exact Or.inl (h2 ▸ h1); exact Or.inl (h1 ▸ h2);
     exact Or.inr ⟨h1.trans h2, h1f.trans h2f⟩]

theorem dateLe_total (a b : DateJS) : dateLe a b ∨ dateLe b a := by
  unfold dateLe; omega

theorem dateLe_antisymm {a b : DateJS} (h1 : dateLe a b) (h2 : dateLe b a) : a = b := by
  rcases a with ⟨am, af⟩; rcases b with ⟨bm, bf⟩
  simp only [dateLe] at h1 h2
  simp only [DateJS.mk.injEq]
  omega

/-- Currency codes are plain strings (`src/Currency.ts`). -/
def Currency : Type := String

instance : DecidableEq Currency := fun a b => String.decEq a b

instance : BEq Currency := inferInstanceAs (BEq String)

instance : LawfulBEq Currency := inferInstanceAs (LawfulBEq String)

instance : Repr Currency := inferInstanceAs (Repr String)

/-- Account normality (`AccountInfo.kind` in `src/Account.ts`). -/
inductive AccountKind where
  | normalCredit
  | normalDebit
deriving DecidableEq, Repr

/-- Statement membership (`AccountInfo.statement` in `src/Account.ts`). -/
inductive StatementKind where
  | balanceSheet
  | incomeStatement
deriving DecidableEq, Repr

/-- `AccountInfo` (`src/Account.ts`). -/
structure AccountInfo where
  kind : AccountKind
  statement : StatementKind
deriving DecidableEq, Repr

/-- `Account` (`src/Account.ts`): name, info and an ordered list of children. -/
inductive Account where
  | mk (name : String) (info : AccountInfo) (children : List Account)
deriving Repr

def Account.name : Account → String
  | .mk n _ _ => n

def Account.info : Account → AccountInfo
  | .mk _ i _ => i

def Account.children : Account → List Account
  | .mk _ _ cs => cs

mutual
def Account.decEq : (a b : Account) → Decidable (a = b)
  | .mk n1 i1 c1, .mk n2 i2 c2 =>
    if hn : n1 = n2 then
      if hi : i1 = i2 then
        match Account.decEqList c1 c2 with
        | isTrue hc => isTrue (by rw [hn, hi, hc])
        | isFalse hc => isFalse (by intro h; injection h; exact hc (by assumption))
      else isFalse (by intro h; injection h; exact hi (by assumption))
    else isFalse (by intro h; injection h; exact hn (by assumption))
def Account.decEqList : (a b : List Account) → Decidable (a = b)
  | [], [] => isTrue rfl
  | _ :: _, [] => isFalse (by intro h; injection h)
  | [], _ :: _ => isFalse (by intro h; injection h)
  | a :: as, b :: bs =>
    match Account.decEq a b, Account.decEqList as bs with
    | isTrue h1, isTrue h2 => isTrue (by rw [h1, h2])
    | isFalse h1, _ => isFalse (by intro h; injection h; exact h1 (by assumption))
    | _, isFalse h2 => isFalse (by intro h; injection h; exact h2 (by assumption))
end

instance : DecidableEq Account := Account.decEq

instance : BEq Account := ⟨fun a b => decide (a = b)⟩

instance : LawfulBEq Account where
  eq_of_beq h := of_decide_eq_true h
  rfl := by intro a; exact decide_eq_true rfl

/-- Structural induction on an account and all its descendants. -/
theorem Account.inductionOn {P : Account → Prop}
    (h : ∀ n i cs, (∀ a ∈ cs, P a) → P (.mk n i cs)) : ∀ a, P a :=
  fun a =>
    Account.rec (motive_1 := P) (motive_2 := fun l => ∀ x ∈ l, P x)
      (fun n i cs ih => h n i cs ih)
      (fun x hx => absurd hx (List.not_mem_nil x))
      (fun _hd _tl ph pt => fun x hx => by
        cases hx with
        | head => exact ph
        | tail _ hmem => exact pt x hmem)
      a

/-- `AccountTree` (`src/Account.ts`). -/
structure AccountTree where
  rootAccounts : List Account
deriving DecidableEq, Repr

mutual
/-- `findAccount` (`src/Account.ts`): for each child in order, check the
child's name, else search inside that child, before moving to the next
child. Never checks `account`'s own name. -/
def findAccount : Account → String → Option Account
  | .mk _ _ children, name => findAccountList children name
termination_by structural a _ => a

/-- The loop body of `findAccount` over the remaining children. -/
def findAccountList : List Account → String → Option Account
  | [], _ => none
  | child :: rest, n =>
    if child.name = n then some child
    else
      match findAccount child n with
      | some acc => some acc
      | none => findAccountList rest n
termination_by structural l _ => l
end

/-- `findAccountInAccountTree` (`src/Account.ts`): for each root in order,
check the root's name, else search that root's whole subtree, before
moving to the next root. -/
def findAccountInAccountTree (accountTree : AccountTree) (name : String) : Option Account :=
  go accountTree.rootAccounts
where
  go : List Account → Option Account
    | [] => none
    | account :: rest =>
      if account.name = name then some account
      else
        match findAccount account name with
        | some acc => some acc
        | none => go rest

/-- `isSubaccount` (`src/Account.ts`): name-based membership of `child`
in `parent`'s strict subtree. -/
def isSubaccount (parent child : Account) : Bool :=
  findAccount parent child.name != none

mutual
/-- Pre-order flattening of a subtree: the node, then each child's
subtree in order.  This is the visit order of `findAccount` /
`findAccountInAccountTree` and of the traversal callbacks. -/
def preOrderList : Account → List Account
  | .mk n i children => .mk n i children :: preOrderListForest children
termination_by structural a => a

/-- Pre-order flattening of a forest of sibling subtrees, in order. -/
def preOrderListForest : List Account → List Account
  | [] => []
  | c :: rest => preOrderList c ++ preOrderListForest rest
termination_by structural l => l
end

/-- A spreadsheet table: rows of string cells (`SheetsTable` in
`src/index.ts`).  An absent cell (JS `undefined` from destructuring a
short row) is modelled as `""` via `List.getD`. -/
def SheetsTable : Type := List (List String)

/-- `nonEmptyCellFilter` (`src/index.ts`). -/
def nonEmptyCellFilter (cell : String) : Bool := cell != ""

/-- `nonEmptyRowFilter` (`src/index.ts`): keeps a row unless its first
cell is the empty string (a JS empty row passes, since
`undefined !== ''`). -/
def nonEmptyRowFilter (row : List String) : Bool := row.head? != some ""

/-- The fresh-subtree case of `addAccountTableEntryToAccount`: inserting
a path below a newly created node (whose `children` start empty) always
takes the creation branch, building a single chain of nodes that all
inherit `info`. -/
def freshChildren (info : AccountInfo) : List String → List Account
  | [] => []
  | nm :: rest => [Account.mk nm info (freshChildren info rest)]

mutual
/-- `addAccountTableEntryToAccount` (`src/Account.ts`), rendered
functionally: consuming the path, descend into the first child carrying
the next name, or create a fresh child chain inheriting the parent's
`info` (`freshChildren` renders the recursive call on the newly pushed
node). -/
def addAccountTableEntryToAccount : Account → List String → Account
  | a, [] => a
  | .mk n i children, newName :: rest =>
    if children.any (fun acc => acc.name == newName) then
      .mk n i (addIntoFirstNamedChild children newName rest)
    else
      .mk n i (children ++ [Account.mk newName i (freshChildren i rest)])
termination_by structural a _ => a

/-- Replace the first child with the given name by the result of
inserting the remaining path into it (the in-place mutation of
`account.children.find(...)` in the source). -/
def addIntoFirstNamedChild : List Account → String → List String → List Account
  | [], _, _ => []
  | c :: cs, nm, entry =>
    if c.name = nm then addAccountTableEntryToAccount c entry :: cs
    else c :: addIntoFirstNamedChild cs nm entry
termination_by structural l _ _ => l
end

/-- Replace the first root with the given name by the result of inserting
the remaining path into it. -/
def addIntoFirstNamedRoot : List Account → String → List String → List Account
  | [], _, _ => []
  | r :: rs, nm, entry =>
    if r.name = nm then addAccountTableEntryToAccount r entry :: rs
    else r :: addIntoFirstNamedRoot rs nm entry

/-- `addAccountTableEntryToAccountTree` (`src/Account.ts`): resolve the
first path segment against the roots (no-op when absent), then insert
the rest of the path below that root. -/
def addAccountTableEntryToAccountTree (tree : AccountTree) (entry : List String) : AccountTree :=
  match entry with
  | [] => tree
  | first :: rest =>
    if tree.rootAccounts.any (fun a => a.name == first) then
      ⟨addIntoFirstNamedRoot tree.rootAccounts first rest⟩
    else tree

mutual
/-- Append `cs` to the children of the first node found by
`findAccount`-order search inside `a`'s strict subtree; `none` when the
name does not occur (the source would dereference `null`). -/
def appendToFirstFound : Account → String → List Account → Option Account
  | .mk n i children, nm, cs =>
    (appendToFirstFoundList children nm cs).map (fun children2 => .mk n i children2)
termination_by structural a _ _ => a

/-- List counterpart of `appendToFirstFound`, mirroring
`findAccountList`'s visiting order. -/
def appendToFirstFoundList : List Account → String → List Account → Option (List Account)
  | [], _, _ => none
  | child :: rest, nm, cs =>
    if child.name = nm then
      some ((.mk child.name child.info (child.children ++ cs)) :: rest)
    else
      match appendToFirstFound child nm cs with
      | some child2 => some (child2 :: rest)
      | none => (appendToFirstFoundList rest nm cs).map (fun rest2 => child :: rest2)
termination_by structural l _ _ => l
end

/-- Append `cs` to the children of the node `findAccountInAccountTree`
would return, rebuilding the tree along the search path. -/
def appendToFirstFoundTree (t : AccountTree) (nm : String) (cs : List Account) : Option AccountTree :=
  (go t.rootAccounts).map (fun roots => ⟨roots⟩)
where
  go : List Account → Option (List Account)
    | [] => none
    | r :: rest =>
      if r.name = nm then some ((.mk r.name r.info (r.children ++ cs)) :: rest)
      else
        match appendToFirstFound r nm cs with
        | some r2 => some (r2 :: rest)
        | none => (go rest).map (fun rest2 => r :: rest2)

/-- The root-building and path-insertion phase of `makeAccountTree`
(`src/index.ts` lines 39-59): one root per account-types row, then the
account-table paths, then the synthetic `equity / Retained Earnings`
path. -/
def makeAccountTreeBase (accountTable accountTypes : SheetsTable) : AccountTree :=
  let roots := (accountTypes.filter nonEmptyRowFilter).map (fun row =>
    Account.mk (row.getD 0 "")
      ⟨if row.getD 1 "" == "Credit" then .normalCredit else .normalDebit,
       if row.getD 2 "" == "Yes" then .incomeStatement else .balanceSheet⟩
      [])
  let t1 := (accountTable.filter nonEmptyRowFilter).foldl
    (fun t row => addAccountTableEntryToAccountTree t (row.filter nonEmptyCellFilter))
    ⟨roots⟩
  addAccountTableEntryToAccountTree t1 ["equity", "Retained Earnings"]

/-- `makeAccountTree` (`src/index.ts`): after `makeAccountTreeBase`, push
every income-statement root into the children of the first node named
`Retained Earnings`.  `none` models the `TypeError` the source throws
when that node does not exist.  The pushed accounts are the pre-push
snapshots of the roots (under JS reference semantics an income-statement
`equity` root would instead produce a cyclic object graph, which has no
value-level counterpart). -/
def makeAccountTree (accountTable accountTypes : SheetsTable) : Option AccountTree :=
  let t2 := makeAccountTreeBase accountTable accountTypes
  let result := t2.rootAccounts.filter (fun a => a.info.statement == .incomeStatement)
  appendToFirstFoundTree t2 "Retained Earnings" result

/-- Posting polarity (`Entry.type` in `src/Entry.ts`). -/
inductive EntryType where
  | debit
  | credit
deriving DecidableEq, Repr

/-- The tagged union `RawEntry.data` (`src/Entry.ts`). -/
inductive RawEntryData where
  | default (debitAccount creditAccount : Account) (currency : Currency) (value : Int)
  | liability (debitAccount creditAccount : Account) (currency : Currency) (value : Int)
      (paymentTerm : DateJS)
  | exchange (debitAccount creditAccount exchangeAccount : Account)
      (debitValue : Int) (debitCurrency : Currency) (creditValue : Int) (creditCurrency : Currency)
deriving DecidableEq, Repr

/-- `RawEntry` (`src/Entry.ts`). -/
structure RawEntry where
  date : DateJS
  description : String
  data : RawEntryData
deriving DecidableEq, Repr

/-- `Entry.metadata` (`src/Entry.ts`). -/
structure EntryMetadata where
  originalEntry : RawEntry
deriving DecidableEq, Repr

/-- `Entry` (`src/Entry.ts`): one posting.  Fields in source order; the
optional `term` is `none` when the source leaves it absent. -/
structure Entry where
  account : Account
  date : DateJS
  term : Option DateJS
  type : EntryType
  currency : Currency
  value : Int
  metadata : EntryMetadata
deriving DecidableEq, Repr

/-- The per-entry body of the `flatMap` in `processRawEntries`
(`src/Entry.ts`): 2 postings for `default`/`liability`, 4 for
`exchange`, in source order. -/
def expandRawEntry (rawEntry : RawEntry) : List Entry :=
  match rawEntry.data with
  | .default debitAccount creditAccount currency value =>
    [⟨creditAccount, rawEntry.date, none, .credit, currency, value, ⟨rawEntry⟩⟩,
     ⟨debitAccount, rawEntry.date, none, .debit, currency, value, ⟨rawEntry⟩⟩]
  | .liability debitAccount creditAccount currency value paymentTerm =>
    [⟨creditAccount, rawEntry.date, some paymentTerm, .credit, currency, value, ⟨rawEntry⟩⟩,
     ⟨debitAccount, rawEntry.date, some paymentTerm, .debit, currency, value, ⟨rawEntry⟩⟩]
  | .exchange debitAccount creditAccount exchangeAccount
      debitValue debitCurrency creditValue creditCurrency =>
    [⟨creditAccount, rawEntry.date, none, .credit, creditCurrency, creditValue, ⟨rawEntry⟩⟩,
     ⟨debitAccount, rawEntry.date, none, .debit, debitCurrency, debitValue, ⟨rawEntry⟩⟩,
     ⟨exchangeAccount, rawEntry.date, none, .debit, creditCurrency, creditValue, ⟨rawEntry⟩⟩,
     ⟨exchangeAccount, rawEntry.date, none, .credit, debitCurrency, debitValue, ⟨rawEntry⟩⟩]

/-- `processRawEntries` (`src/Entry.ts`). -/
def processRawEntries (rawEntries : List RawEntry) : List Entry :=
  rawEntries.flatMap expandRawEntry

/-- Claim C4: `processRawEntries` maps every RawEntry of kind `default` or
`liability` to exactly one credit posting and one debit posting with equal
value and equal currency (for `liability`, both postings additionally carry
`term = paymentTerm`), and every RawEntry of kind `exchange` to exactly 4
postings, where the exchange account's two postings have opposite type and
carry the two different currencies/values of the original transaction (a
debit of the credit-currency/credit-value and a credit of the
debit-currency/debit-value); normalization is total, producing one posting
block per raw entry for any input list. -/
theorem claim_C4 :
    (∀ (r : RawEntry) (da ca : Account) (cur : Currency) (v : Int),
        r.data = .default da ca cur v →
        (expandRawEntry r).length = 2 ∧
        (expandRawEntry r).countP (fun e => e.type == EntryType.credit) = 1 ∧
        (expandRawEntry r).countP (fun e => e.type == EntryType.debit) = 1 ∧
        ∀ e ∈ expandRawEntry r, e.currency = cur ∧ e.value = v ∧ e.term = none) ∧
    (∀ (r : RawEntry) (da ca : Account) (cur : Currency) (v : Int) (pt : DateJS),
        r.data = .liability da ca cur v pt →
        (expandRawEntry r).length = 2 ∧
        (expandRawEntry r).countP (fun e => e.type == EntryType.credit) = 1 ∧
        (expandRawEntry r).countP (fun e => e.type == EntryType.debit) = 1 ∧
        ∀ e ∈ expandRawEntry r, e.currency = cur ∧ e.value = v ∧ e.term = some pt) ∧
    (∀ (r : RawEntry) (da ca ea : Account) (dv : Int) (dc : Currency) (cv : Int) (cc : Currency),
        r.data = .exchange da ca ea dv dc cv cc →
        (expandRawEntry r).length = 4 ∧
        ∃ e2 e3, (expandRawEntry r)[2]? = some e2 ∧ (expandRawEntry r)[3]? = some e3 ∧
          e2.account = ea ∧ e3.account = ea ∧
          e2.type = EntryType.debit ∧ e3.type = EntryType.credit ∧
          e2.currency = cc ∧ e2.value = cv ∧ e3.currency = dc ∧ e3.value = dv) ∧
    (∀ rawEntries : List RawEntry,
        (processRawEntries rawEntries).length
          = (rawEntries.map (fun r => (expandRawEntry r).length)).sum) := by
  refine ⟨?_, ?_, ?_, ?_⟩
  · intro r da ca cur v h
    refine ⟨by simp [expandRawEntry, h], ?_, ?_, by simp [expandRawEntry, h]⟩ <;>
      · simp only [expandRawEntry, h, List.countP, List.countP.go]
        decide
  · intro r da ca cur v pt h
    refine ⟨by simp [expandRawEntry, h], ?_, ?_, by simp [expandRawEntry, h]⟩ <;>
      · simp only [expandRawEntry, h, List.countP, List.countP.go]
        decide
  · intro r da ca ea dv dc cv cc h
    refine ⟨by simp [expandRawEntry, h],
      ⟨ea, r.date, none, .debit, cc, cv, ⟨r⟩⟩, ⟨ea, r.date, none, .credit, dc, dv, ⟨r⟩⟩,
      by simp [expandRawEntry, h], by simp [expandRawEntry, h],
      rfl, rfl, rfl, rfl, rfl, rfl, rfl, rfl⟩
  · intro rawEntries
    simp only [processRawEntries, List.length_flatMap]
    rfl

theorem claim_C4_witness :
    (expandRawEntry ⟨⟨0, 0⟩, "t",
        .default (Account.mk "cash" ⟨.normalDebit, .balanceSheet⟩ [])
          (Account.mk "rev" ⟨.normalCredit, .incomeStatement⟩ []) "USD" 5⟩).length = 2 ∧
    (expandRawEntry ⟨⟨0, 0⟩, "fx",
        .exchange (Account.mk "cash" ⟨.normalDebit, .balanceSheet⟩ [])
          (Account.mk "rev" ⟨.normalCredit, .incomeStatement⟩ [])
          (Account.mk "fx" ⟨.normalCredit, .incomeStatement⟩ []) 100 "USD" 90 "EUR"⟩).length = 4 :=
  ⟨(claim_C4.1 _ _ _ _ _ rfl).1, (claim_C4.2.2.1 _ _ _ _ _ _ _ _ rfl).1⟩

/-- `Period` (`src/index.ts`): half-open interval; `endd` renders the
source's `end` field (a Lean keyword). -/
structure Period where
  begin : DateJS
  endd : DateJS
deriving DecidableEq, Repr

/-- `isDateWithinPeriod` (`src/index.ts`): `date >= begin && date < end`. -/
def isDateWithinPeriod (date : DateJS) (period : Period) : Bool :=
  dateGeB date period.begin && dateLtB date period.endd

/-- `isDateLessThanPeriod` (`src/index.ts`): `date < end`, no lower bound. -/
def isDateLessThanPeriod (date : DateJS) (period : Period) : Bool :=
  dateLtB date period.endd

/-- `makeCurrencies` (`src/index.ts`). -/
def makeCurrencies (currenciesTable : SheetsTable) : List Currency :=
  (currenciesTable.filter nonEmptyRowFilter).map (fun row => row.getD 0 "")

/-- Modelled from the spec: `eachMonthOfInterval` of the excluded
`date-fns` collaborator, specified as "given a start and end instant,
produce the ordered sequence of disjoint, contiguous one-month periods
covering that range" — here the first-of-month instants from the start
month through the end month; `none` models the range error the library
raises on an inverted interval. -/
def eachMonthOfInterval (start finish : DateJS) : Option (List DateJS) :=
  if dateLe start finish then
    some ((List.range ((finish.month - start.month).toNat + 1)).map
      (fun (i : Nat) => ⟨start.month + (i : Int), 0⟩))
  else none

/-- `add(date, {months: 1})` of `date-fns`: advance one calendar month. -/
def addOneMonth (d : DateJS) : DateJS := ⟨d.month + 1, d.frac⟩

/-- `makeMonthlyAccountingPeriods` (`src/index.ts`): unguarded
`ledger[0]`/`ledger[ledger.length - 1]` accesses; `none` models the
`TypeError` on an empty ledger. -/
def makeMonthlyAccountingPeriods (ledger : List Entry) : Option (List Period) :=
  match ledger.head?, ledger.getLast? with
  | some first, some last =>
    (eachMonthOfInterval first.date last.date).map
      (fun months => months.map (fun firstDate => ⟨firstDate, addOneMonth firstDate⟩))
  | _, _ => none

/-- The `{totalAccount, totalSubaccount}` record of the aggregator
(`src/index.ts`). -/
structure Totals where
  totalAccount : Int
  totalSubaccount : Int
deriving DecidableEq, Repr

/-- `reduceEntriesTotal` (`src/index.ts`, aggregator): sign fixed by the
visited account's kind, polarity by the posting's type. -/
def reduceEntriesTotal (kind : AccountKind) (total : Int) (entry : Entry) : Int :=
  match kind with
  | .normalCredit =>
    match entry.type with
    | .credit => total + entry.value
    | .debit => total - entry.value
  | .normalDebit =>
    match entry.type with
    | .debit => total + entry.value
    | .credit => total - entry.value

/-- The direct-posting selection of the income-statement aggregator
(`src/index.ts` lines 182-187): exact account identity, date within the
half-open period, currency match. -/
def ownEntryFilter (account : Account) (period : Period) (currency : Currency)
    (entry : Entry) : Bool :=
  entry.account == account && isDateWithinPeriod entry.date period
    && entry.currency == currency

/-- The subaccount selection of the income-statement aggregator
(`src/index.ts` lines 188-193): name-based subtree membership. -/
def subaccountEntryFilter (account : Account) (period : Period) (currency : Currency)
    (entry : Entry) : Bool :=
  isSubaccount account entry.account && isDateWithinPeriod entry.date period
    && entry.currency == currency

/-- The direct-posting selection of the balance-sheet aggregator
(`src/index.ts` lines 354-359): `date < end`, no lower bound. -/
def ownEntryFilterBS (account : Account) (period : Period) (currency : Currency)
    (entry : Entry) : Bool :=
  entry.account == account && isDateLessThanPeriod entry.date period
    && entry.currency == currency

/-- The subaccount selection of the balance-sheet aggregator
(`src/index.ts` lines 360-365). -/
def subaccountEntryFilterBS (account : Account) (period : Period) (currency : Currency)
    (entry : Entry) : Bool :=
  isSubaccount account entry.account && isDateLessThanPeriod entry.date period
    && entry.currency == currency

/-- `totalAccount` of the income-statement aggregator for one
(account, period, currency) cell. -/
def totalAccountOf (account : Account) (period : Period) (currency : Currency)
    (entries : List Entry) : Int :=
  (entries.filter (ownEntryFilter account period currency)).foldl
    (reduceEntriesTotal account.info.kind) 0

/-- `totalSubaccount` of the income-statement aggregator for one
(account, period, currency) cell. -/
def totalSubaccountOf (account : Account) (period : Period) (currency : Currency)
    (entries : List Entry) : Int :=
  (entries.filter (subaccountEntryFilter account period currency)).foldl
    (reduceEntriesTotal account.info.kind) 0

/-- `totalAccount` of the balance-sheet aggregator for one cell. -/
def totalAccountOfBS (account : Account) (period : Period) (currency : Currency)
    (entries : List Entry) : Int :=
  (entries.filter (ownEntryFilterBS account period currency)).foldl
    (reduceEntriesTotal account.info.kind) 0

/-- `totalSubaccount` of the balance-sheet aggregator for one cell. -/
def totalSubaccountOfBS (account : Account) (period : Period) (currency : Currency)
    (entries : List Entry) : Int :=
  (entries.filter (subaccountEntryFilterBS account period currency)).foldl
    (reduceEntriesTotal account.info.kind) 0

/-- `AccountTotalByPeriod` (`src/index.ts`): the nested period → currency
maps, as association lists in source insertion order. -/
def AccountTotalByPeriod : Type := List (Period × List (Currency × Totals))

/-- The `byPeriod` map the income-statement aggregator's entry callback
builds for one account (`src/index.ts` lines 178-217). -/
def accountTotalsFor (account : Account) (accountingPeriods : List Period)
    (currencies : List Currency) (entries : List Entry) : AccountTotalByPeriod :=
  accountingPeriods.map (fun period =>
    (period, currencies.map (fun currency =>
      (currency, Totals.mk (totalAccountOf account period currency entries)
        (totalSubaccountOf account period currency entries)))))

/-- The `byPeriod` map the balance-sheet aggregator's entry callback
builds for one account (`src/index.ts` lines 350-389). -/
def accountTotalsForBS (account : Account) (accountingPeriods : List Period)
    (currencies : List Currency) (entries : List Entry) : AccountTotalByPeriod :=
  accountingPeriods.map (fun period =>
    (period, currencies.map (fun currency =>
      (currency, Totals.mk (totalAccountOfBS account period currency entries)
        (totalSubaccountOfBS account period currency entries)))))

mutual
/-- Modelled from the spec: `AccountTraversalRecuce`, imported by
`src/index.ts` from `./Account` but absent from the supplied sources.
Spec §4.1 (`preOrderReduce`): depth-first, parent before children,
left-to-right children, a single accumulated value threaded through,
with the entry and exit callbacks the call sites supply; every account
of the subtree is visited exactly once. -/
def AccountTraversalReduce {T : Type} : Account → T → (Account → T → T) → (Account → T → T) → T
  | .mk n i children, acc, pre, post =>
    post (.mk n i children)
      (AccountTraversalReduceList children (pre (.mk n i children) acc) pre post)
termination_by structural a _ _ _ => a

/-- Left-to-right threading of `AccountTraversalReduce` over siblings. -/
def AccountTraversalReduceList {T : Type} :
    List Account → T → (Account → T → T) → (Account → T → T) → T
  | [], acc, _, _ => acc
  | c :: rest, acc, pre, post =>
    AccountTraversalReduceList rest (AccountTraversalReduce c acc pre post) pre post
termination_by structural l _ _ _ => l
end

/-- `AccountTotals` (`src/index.ts`). -/
structure AccountTotals where
  account : Account
  totals : AccountTotalByPeriod

/-- `accountTotalsByPeriodAndCurrency` (`src/index.ts` lines 166-226). -/
def accountTotalsByPeriodAndCurrency (accounts : List Account)
    (accountingPeriods : List Period) (currencies : List Currency)
    (entries : List Entry) : List AccountTotals :=
  accounts.foldl (fun list account =>
    AccountTraversalReduce account list
      (fun account list =>
        list ++ [⟨account, accountTotalsFor account accountingPeriods currencies entries⟩])
      (fun _ acc => acc)) []

/-- `byAccountAccumulated` of `createMonthlyBalanceSheet`
(`src/index.ts` lines 344-397): same shape, balance-sheet date filter. -/
def accountTotalsByPeriodAndCurrencyBS (accounts : List Account)
    (accountingPeriods : List Period) (currencies : List Currency)
    (entries : List Entry) : List AccountTotals :=
  accounts.foldl (fun list account =>
    AccountTraversalReduce account list
      (fun account list =>
        list ++ [⟨account, accountTotalsForBS account accountingPeriods currencies entries⟩])
      (fun _ acc => acc)) []

/-- The `totals.get(period)!.get(currency)!` double lookup of the report
builders.  The non-null assertions never fail in the program because the
maps are populated for exactly the iterated periods and currencies
(`getTotals_accountTotalsFor` below); the `Totals.mk 0 0` default is
unreachable there. -/
def getTotals (t : AccountTotalByPeriod) (p : Period) (c : Currency) : Totals :=
  (((List.lookup p t).getD []).lookup c).getD ⟨0, 0⟩

theorem lookup_map_graph {α β : Type} [BEq α] [LawfulBEq α] (f : α → β) (l : List α) (x : α)
    (hx : x ∈ l) : List.lookup x (l.map (fun a => (a, f a))) = some (f x) := by
  induction l with
  | nil => cases hx
  | cons hd tl ih =>
    simp only [List.map_cons, List.lookup]
    cases hbeq : x == hd with
    | true =>
      have : x = hd := eq_of_beq hbeq
      simp [this]
    | false =>
      have hne : x ≠ hd := fun h => by rw [h] at hbeq; simp at hbeq
      have hmem : x ∈ tl := by
        cases hx with
        | head => exact absurd rfl hne
        | tail _ h => exact h
      simp [ih hmem]

theorem getTotals_accountTotalsFor (account : Account) (ps : List Period)
    (cs : List Currency) (entries : List Entry) (p : Period) (c : Currency)
    (hp : p ∈ ps) (hc : c ∈ cs) :
    getTotals (accountTotalsFor account ps cs entries) p c =
      ⟨totalAccountOf account p c entries, totalSubaccountOf account p c entries⟩ := by
  unfold getTotals accountTotalsFor
  rw [lookup_map_graph (fun period => cs.map (fun currency =>
      (currency, Totals.mk (totalAccountOf account period currency entries)
        (totalSubaccountOf account period currency entries)))) ps p hp]
  simp only [Option.getD_some]
  rw [lookup_map_graph (fun currency => Totals.mk (totalAccountOf account p currency entries)
      (totalSubaccountOf account p currency entries)) cs c hc]
  rfl

theorem getTotals_accountTotalsForBS (account : Account) (ps : List Period)
    (cs : List Currency) (entries : List Entry) (p : Period) (c : Currency)
    (hp : p ∈ ps) (hc : c ∈ cs) :
    getTotals (accountTotalsForBS account ps cs entries) p c =
      ⟨totalAccountOfBS account p c entries, totalSubaccountOfBS account p c entries⟩ := by
  unfold getTotals accountTotalsForBS
  rw [lookup_map_graph (fun period => cs.map (fun currency =>
      (currency, Totals.mk (totalAccountOfBS account period currency entries)
        (totalSubaccountOfBS account period currency entries)))) ps p hp]
  simp only [Option.getD_some]
  rw [lookup_map_graph (fun currency => Totals.mk (totalAccountOfBS account p currency entries)
      (totalSubaccountOfBS account p currency entries)) cs c hc]
  rfl

/-- Claim C3: for an account of kind `normalCredit` and a posting list
containing a single credit posting of value V on that account, dated
within the period and matching the currency, the aggregator yields
`totalAccount = +V` for that (account, period, currency); the identical
single posting aggregated against a `normalDebit` account yields
`totalAccount = -V`. -/
theorem claim_C3 (account : Account) (ps : List Period) (cs : List Currency)
    (p : Period) (c : Currency) (e : Entry)
    (hp : p ∈ ps) (hc : c ∈ cs)
    (hacc : e.account = account) (hdate : isDateWithinPeriod e.date p = true)
    (hcur : e.currency = c) (htype : e.type = EntryType.credit) :
    (getTotals (accountTotalsFor account ps cs [e]) p c).totalAccount =
      (if account.info.kind = AccountKind.normalCredit then e.value else -e.value) := by
  rw [getTotals_accountTotalsFor account ps cs [e] p c hp hc]
  have hf : ownEntryFilter account p c e = true := by
    simp [ownEntryFilter, hacc, hdate, hcur]
  simp only [totalAccountOf, List.filter, hf]
  cases hk : account.info.kind <;>
    simp [reduceEntriesTotal, htype, hk, List.foldl]

theorem claim_C3_witness :
    (getTotals (accountTotalsFor (Account.mk "sales" ⟨.normalCredit, .incomeStatement⟩ [])
        [⟨⟨0, 0⟩, ⟨1, 0⟩⟩] ["USD"]
        [⟨Account.mk "sales" ⟨.normalCredit, .incomeStatement⟩ [], ⟨0, 1⟩, none, .credit,
          "USD", 5, ⟨⟨⟨0, 1⟩, "t", .default (Account.mk "cash" ⟨.normalDebit, .balanceSheet⟩ [])
            (Account.mk "sales" ⟨.normalCredit, .incomeStatement⟩ []) "USD" 5⟩⟩⟩])
        ⟨⟨0, 0⟩, ⟨1, 0⟩⟩ "USD").totalAccount = 5 ∧
    (getTotals (accountTotalsFor (Account.mk "cash" ⟨.normalDebit, .balanceSheet⟩ [])
        [⟨⟨0, 0⟩, ⟨1, 0⟩⟩] ["USD"]
        [⟨Account.mk "cash" ⟨.normalDebit, .balanceSheet⟩ [], ⟨0, 1⟩, none, .credit,
          "USD", 5, ⟨⟨⟨0, 1⟩, "t", .default (Account.mk "cash" ⟨.normalDebit, .balanceSheet⟩ [])
            (Account.mk "sales" ⟨.normalCredit, .incomeStatement⟩ []) "USD" 5⟩⟩⟩])
        ⟨⟨0, 0⟩, ⟨1, 0⟩⟩ "USD").totalAccount = -5 := by
  constructor
  · exact (claim_C3 (Account.mk "sales" ⟨.normalCredit, .incomeStatement⟩ [])
      [⟨⟨0, 0⟩, ⟨1, 0⟩⟩] ["USD"] ⟨⟨0, 0⟩, ⟨1, 0⟩⟩ "USD"
      ⟨Account.mk "sales" ⟨.normalCredit, .incomeStatement⟩ [], ⟨0, 1⟩, none, .credit,
        "USD", 5, ⟨⟨⟨0, 1⟩, "t", .default (Account.mk "cash" ⟨.normalDebit, .balanceSheet⟩ [])
          (Account.mk "sales" ⟨.normalCredit, .incomeStatement⟩ []) "USD" 5⟩⟩⟩
      (by simp) (by simp) rfl (by decide) rfl rfl).trans (by decide)
  · exact (claim_C3 (Account.mk "cash" ⟨.normalDebit, .balanceSheet⟩ [])
      [⟨⟨0, 0⟩, ⟨1, 0⟩⟩] ["USD"] ⟨⟨0, 0⟩, ⟨1, 0⟩⟩ "USD"
      ⟨Account.mk "cash" ⟨.normalDebit, .balanceSheet⟩ [], ⟨0, 1⟩, none, .credit,
        "USD", 5, ⟨⟨⟨0, 1⟩, "t", .default (Account.mk "cash" ⟨.normalDebit, .balanceSheet⟩ [])
          (Account.mk "sales" ⟨.normalCredit, .incomeStatement⟩ []) "USD" 5⟩⟩⟩
      (by simp) (by simp) rfl (by decide) rfl rfl).trans (by decide)

/-- Claim C6: the income-statement aggregation's direct selection takes a
posting iff its account is the visited account by exact identity, its
date satisfies `begin <= date < end` (half-open), and its currency
matches, while the balance-sheet aggregation's direct selection requires
only `date < end` with no lower bound (plus the same identity and
currency tests): the two statement types use different comparison
operators. -/
theorem claim_C6 (account : Account) (p : Period) (c : Currency) (e : Entry) :
    (ownEntryFilter account p c e = true ↔
      (e.account = account ∧ dateLe p.begin e.date ∧ dateLt e.date p.endd ∧ e.currency = c)) ∧
    (ownEntryFilterBS account p c e = true ↔
      (e.account = account ∧ dateLt e.date p.endd ∧ e.currency = c)) := by
  constructor
  · simp [ownEntryFilter, isDateWithinPeriod, dateGeB, dateLtB, and_assoc]
  · simp [ownEntryFilterBS, isDateLessThanPeriod, dateLtB, and_assoc]

theorem findAccountList_eq_find? (cs : List Account)
    (ih : ∀ c ∈ cs, ∀ n, findAccount c n
      = (preOrderListForest c.children).find? (fun x => x.name == n)) :
    ∀ n, findAccountList cs n = (preOrderListForest cs).find? (fun x => x.name == n) := by
  induction cs with
  | nil => intro n; simp [findAccountList, preOrderListForest]
  | cons c rest ihrest =>
    intro n
    have hc := ih c (List.mem_cons_self c rest) n
    have hrest := ihrest (fun x hx m => ih x (List.mem_cons_of_mem c hx) m) n
    cases c with
    | mk cn ci cch =>
      rw [preOrderListForest, preOrderList, List.cons_append]
      by_cases hname : cn = n
      · rw [List.find?_cons_of_pos _ (by simp [Account.name, hname])]
        simp [findAccountList, hname, Account.name]
      · rw [List.find?_cons_of_neg _ (by simp [Account.name, hname]), List.find?_append]
        simp only [findAccountList]
        rw [if_neg (show ¬(Account.mk cn ci cch).name = n by simp [Account.name, hname])]
        simp only [Account.children] at hc
        rw [hc]
        cases hfind : List.find? (fun x => x.name == n) (preOrderListForest cch) with
        | some acc => rfl
        | none => simpa using hrest

theorem findAccount_eq_find? (a : Account) :
    ∀ n, findAccount a n = (preOrderListForest a.children).find? (fun x => x.name == n) := by
  induction a using Account.inductionOn with
  | _ nm i cs ih =>
    intro n
    simp only [findAccount, Account.children]
    exact findAccountList_eq_find? cs (fun c hc => ih c hc) n

theorem findAccountInAccountTree_go_eq (name : String) (l : List Account) :
    findAccountInAccountTree.go name l = findAccountList l name := by
  induction l with
  | nil => simp [findAccountInAccountTree.go, findAccountList]
  | cons r rest ih => simp only [findAccountInAccountTree.go, findAccountList, ih]

/-- Claim C5 (amended): `findAccountInAccountTree(tree, name)` searches the
roots in list order, checking each root's own name and then that root's
entire subtree before moving to the next root, and returns the first
node named `name` in this interleaved pre-order (the concatenation of
the roots' pre-order listings); consequently a strict descendant of an
earlier root named `n` is returned in preference to a later root named
`n`. -/
theorem claim_C5_amended (tree : AccountTree) (name : String) :
    findAccountInAccountTree tree name
      = (preOrderListForest tree.rootAccounts).find? (fun a => a.name == name) := by
  unfold findAccountInAccountTree
  rw [findAccountInAccountTree_go_eq]
  exact findAccountList_eq_find? tree.rootAccounts
    (fun c _ => findAccount_eq_find? c) name

/-- Claim C5 (counterexample): in the tree with roots
`a` (having child `x`, balance-sheet info) and `x` (distinct info), the
lookup of `"x"` returns the earlier root's strict descendant, not the
root named `x`. -/
theorem claim_C5_counterexample :
    findAccountInAccountTree
        ⟨[Account.mk "a" ⟨.normalCredit, .balanceSheet⟩
            [Account.mk "x" ⟨.normalCredit, .balanceSheet⟩ []],
          Account.mk "x" ⟨.normalDebit, .balanceSheet⟩ []]⟩ "x"
      = some (Account.mk "x" ⟨.normalCredit, .balanceSheet⟩ []) ∧
    (Account.mk "x" ⟨.normalDebit, .balanceSheet⟩ []) ∈
      (AccountTree.mk [Account.mk "a" ⟨.normalCredit, .balanceSheet⟩
            [Account.mk "x" ⟨.normalCredit, .balanceSheet⟩ []],
          Account.mk "x" ⟨.normalDebit, .balanceSheet⟩ []]).rootAccounts ∧
    (Account.mk "x" ⟨.normalCredit, .balanceSheet⟩ [])
      ≠ (Account.mk "x" ⟨.normalDebit, .balanceSheet⟩ []) := by
  refine ⟨rfl, by simp, by decide⟩

/-- Claim C8: period derivation is total exactly under the precondition
that at least one posting exists: an empty ledger is a fatal precondition
violation (the unguarded `ledger[0]` access; `none` here), and for every
non-empty ledger (whose first date is not after its last date, as the
sorted pipeline guarantees) `makeMonthlyAccountingPeriods` returns the
consecutive one-calendar-month periods covering the range from the first
entry's date to the last entry's date. -/
theorem claim_C8 :
    makeMonthlyAccountingPeriods [] = none ∧
    ∀ (ledger : List Entry) (first last : Entry),
      ledger.head? = some first → ledger.getLast? = some last →
      dateLe first.date last.date →
      makeMonthlyAccountingPeriods ledger =
        some ((List.range ((last.date.month - first.date.month).toNat + 1)).map
          (fun i => ⟨⟨first.date.month + i, 0⟩, ⟨first.date.month + i + 1, 0⟩⟩)) := by
  constructor
  · rfl
  · intro ledger first last hfirst hlast hle
    unfold makeMonthlyAccountingPeriods eachMonthOfInterval
    rw [hfirst, hlast]
    dsimp only
    rw [if_pos hle]
    simp [List.map_map, addOneMonth, Function.comp]

theorem claim_C8_witness :
    dateLe (⟨5, 3⟩ : DateJS) ⟨5, 3⟩ ∧
    makeMonthlyAccountingPeriods
        [⟨Account.mk "cash" ⟨.normalDebit, .balanceSheet⟩ [], ⟨5, 3⟩, none, .debit, "USD", 1,
      ⟨⟨⟨5, 3⟩, "t", .default (Account.mk "cash" ⟨.normalDebit, .balanceSheet⟩ [])
        (Account.mk "sales" ⟨.normalCredit, .incomeStatement⟩ []) "USD" 1⟩⟩⟩]
      = some [⟨⟨5, 0⟩, ⟨6, 0⟩⟩] := by
  refine ⟨by decide, ?_⟩
  have h := claim_C8.2
    [⟨Account.mk "cash" ⟨.normalDebit, .balanceSheet⟩ [], ⟨5, 3⟩, none, .debit, "USD", 1,
      ⟨⟨⟨5, 3⟩, "t", .default (Account.mk "cash" ⟨.normalDebit, .balanceSheet⟩ [])
        (Account.mk "sales" ⟨.normalCredit, .incomeStatement⟩ []) "USD" 1⟩⟩⟩]
    ⟨Account.mk "cash" ⟨.normalDebit, .balanceSheet⟩ [], ⟨5, 3⟩, none, .debit, "USD", 1,
      ⟨⟨⟨5, 3⟩, "t", .default (Account.mk "cash" ⟨.normalDebit, .balanceSheet⟩ [])
        (Account.mk "sales" ⟨.normalCredit, .incomeStatement⟩ []) "USD" 1⟩⟩⟩
    ⟨Account.mk "cash" ⟨.normalDebit, .balanceSheet⟩ [], ⟨5, 3⟩, none, .debit, "USD", 1,
      ⟨⟨⟨5, 3⟩, "t", .default (Account.mk "cash" ⟨.normalDebit, .balanceSheet⟩ [])
        (Account.mk "sales" ⟨.normalCredit, .incomeStatement⟩ []) "USD" 1⟩⟩⟩
    rfl rfl (by decide)
  rw [h]
  decide

theorem appendToFirstFoundList_spec (nm : String) (cs : List Account) (l : List Account)
    (ih : ∀ c ∈ l, ∀ a2, appendToFirstFound c nm cs = some a2 →
      ∃ re, re ∈ preOrderListForest a2.children ∧ re.name = nm ∧ ∀ x ∈ cs, x ∈ re.children) :
    ∀ l2, appendToFirstFoundList l nm cs = some l2 →
      ∃ re, re ∈ preOrderListForest l2 ∧ re.name = nm ∧ ∀ x ∈ cs, x ∈ re.children := by
  induction l with
  | nil => intro l2 h; simp [appendToFirstFoundList] at h
  | cons child rest ihrest =>
    intro l2 h
    unfold appendToFirstFoundList at h
    by_cases hname : child.name = nm
    · rw [if_pos hname] at h
      rw [Option.some.injEq] at h
      subst h
      refine ⟨Account.mk child.name child.info (child.children ++ cs), ?_, hname, ?_⟩
      · simp [preOrderListForest, preOrderList]
      · intro x hx
        simp [Account.children, hx]
    · rw [if_neg hname] at h
      cases happ : appendToFirstFound child nm cs with
      | some child2 =>
        rw [happ] at h
        rw [Option.some.injEq] at h
        subst h
        obtain ⟨re, hre, hnm, hcs⟩ := ih child (List.mem_cons_self child rest) child2 happ
        refine ⟨re, ?_, hnm, hcs⟩
        cases child2 with
        | mk n2 i2 ch2 =>
          simp only [Account.children] at hre
          simp [preOrderListForest, preOrderList, hre]
      | none =>
        rw [happ] at h
        cases hrest : appendToFirstFoundList rest nm cs with
        | none => rw [hrest] at h; simp at h
        | some rest2 =>
          rw [hrest] at h
          simp only [Option.map_some', Option.some.injEq] at h
          subst h
          obtain ⟨re, hre, hnm, hcs⟩ :=
            ihrest (fun c hc => ih c (List.mem_cons_of_mem child hc)) rest2 hrest
          exact ⟨re, by simp [preOrderListForest, hre], hnm, hcs⟩

theorem appendToFirstFound_spec (a : Account) : ∀ (nm : String) (cs : List Account) a2,
    appendToFirstFound a nm cs = some a2 →
    ∃ re, re ∈ preOrderListForest a2.children ∧ re.name = nm ∧ ∀ x ∈ cs, x ∈ re.children := by
  induction a using Account.inductionOn with
  | _ n i ch ih =>
    intro nm cs a2 h
    unfold appendToFirstFound at h
    cases hl : appendToFirstFoundList ch nm cs with
    | none => rw [hl] at h; simp at h
    | some ch2 =>
      rw [hl] at h
      simp only [Option.map_some', Option.some.injEq] at h
      subst h
      obtain ⟨re, hre, hnm, hcs⟩ :=
        appendToFirstFoundList_spec nm cs ch (fun c hc => ih c hc nm cs) ch2 hl
      exact ⟨re, by simpa [Account.children] using hre, hnm, hcs⟩

theorem appendToFirstFoundTree_go_eq (nm : String) (cs : List Account) (l : List Account) :
    appendToFirstFoundTree.go nm cs l = appendToFirstFoundList l nm cs := by
  induction l with
  | nil => simp [appendToFirstFoundTree.go, appendToFirstFoundList]
  | cons r rest ih =>
    unfold appendToFirstFoundTree.go appendToFirstFoundList
    rw [ih]

theorem appendToFirstFoundTree_spec (t : AccountTree) (nm : String) (cs : List Account)
    (t2 : AccountTree) (h : appendToFirstFoundTree t nm cs = some t2) :
    ∃ re, re ∈ preOrderListForest t2.rootAccounts ∧ re.name = nm ∧
      ∀ x ∈ cs, x ∈ re.children := by
  unfold appendToFirstFoundTree at h
  rw [appendToFirstFoundTree_go_eq] at h
  cases hl : appendToFirstFoundList t.rootAccounts nm cs with
  | none => rw [hl] at h; simp at h
  | some roots2 =>
    rw [hl] at h
    simp only [Option.map_some', Option.some.injEq] at h
    subst h
    exact appendToFirstFoundList_spec nm cs t.rootAccounts
      (fun c _ => appendToFirstFound_spec c nm cs) roots2 hl

/-- Claim C1 (amended): when `makeAccountTree` succeeds, the resulting
chart of accounts is not a tree with exclusively-owned nodes: it contains
a reachable node named `Retained Earnings` whose children include every
income-statement root of the constructed root list, so each such account
is reachable both as a root and as a child of another account. -/
theorem claim_C1_amended (accountTable accountTypes : SheetsTable) (tree : AccountTree)
    (h : makeAccountTree accountTable accountTypes = some tree) :
    ∃ re, re ∈ preOrderListForest tree.rootAccounts ∧ re.name = "Retained Earnings" ∧
      ∀ a ∈ (makeAccountTreeBase accountTable accountTypes).rootAccounts,
        a.info.statement = StatementKind.incomeStatement → a ∈ re.children := by
  unfold makeAccountTree at h
  obtain ⟨re, hre, hnm, hcs⟩ := appendToFirstFoundTree_spec _ _ _ _ h
  refine ⟨re, hre, hnm, ?_⟩
  intro a ha hstmt
  exact hcs a (List.mem_filter.mpr ⟨ha, by simp [hstmt]⟩)

/-- Claim C1 (counterexample): with roots `equity` (balance sheet) and
`revenue` (income statement) and an empty account table, the built chart
contains the `revenue` node both as a root and as a child of the
synthetic `Retained Earnings` node — a node is reachable both as a root
and as a child of another account. -/
theorem claim_C1_counterexample :
    makeAccountTree [] [["equity", "Credit", ""], ["revenue", "Credit", "Yes"]]
      = some ⟨[Account.mk "equity" ⟨.normalCredit, .balanceSheet⟩
          [Account.mk "Retained Earnings" ⟨.normalCredit, .balanceSheet⟩
            [Account.mk "revenue" ⟨.normalCredit, .incomeStatement⟩ []]],
          Account.mk "revenue" ⟨.normalCredit, .incomeStatement⟩ []]⟩ ∧
    Account.mk "revenue" ⟨.normalCredit, .incomeStatement⟩ [] ∈
      (AccountTree.mk [Account.mk "equity" ⟨.normalCredit, .balanceSheet⟩
          [Account.mk "Retained Earnings" ⟨.normalCredit, .balanceSheet⟩
            [Account.mk "revenue" ⟨.normalCredit, .incomeStatement⟩ []]],
          Account.mk "revenue" ⟨.normalCredit, .incomeStatement⟩ []]).rootAccounts ∧
    Account.mk "Retained Earnings" ⟨.normalCredit, .balanceSheet⟩
        [Account.mk "revenue" ⟨.normalCredit, .incomeStatement⟩ []] ∈
      preOrderListForest (AccountTree.mk [Account.mk "equity" ⟨.normalCredit, .balanceSheet⟩
          [Account.mk "Retained Earnings" ⟨.normalCredit, .balanceSheet⟩
            [Account.mk "revenue" ⟨.normalCredit, .incomeStatement⟩ []]],
          Account.mk "revenue" ⟨.normalCredit, .incomeStatement⟩ []]).rootAccounts ∧
    Account.mk "revenue" ⟨.normalCredit, .incomeStatement⟩ [] ∈
      (Account.mk "Retained Earnings" ⟨.normalCredit, .balanceSheet⟩
        [Account.mk "revenue" ⟨.normalCredit, .incomeStatement⟩ []]).children ∧
    Account.mk "Retained Earnings" ⟨.normalCredit, .balanceSheet⟩
        [Account.mk "revenue" ⟨.normalCredit, .incomeStatement⟩ []]
      ≠ Account.mk "revenue" ⟨.normalCredit, .incomeStatement⟩ [] := by
  refine ⟨rfl, by decide, by decide, by decide, by decide⟩

theorem claim_C1_witness :
    ∃ re, re ∈ preOrderListForest
        (AccountTree.mk [Account.mk "equity" ⟨.normalCredit, .balanceSheet⟩
          [Account.mk "Retained Earnings" ⟨.normalCredit, .balanceSheet⟩
            [Account.mk "revenue" ⟨.normalCredit, .incomeStatement⟩ []]],
          Account.mk "revenue" ⟨.normalCredit, .incomeStatement⟩ []]).rootAccounts ∧
      re.name = "Retained Earnings" ∧
      ∀ a ∈ (makeAccountTreeBase [] [["equity", "Credit", ""], ["revenue", "Credit", "Yes"]]).rootAccounts,
        a.info.statement = StatementKind.incomeStatement → a ∈ re.children :=
  claim_C1_amended [] [["equity", "Credit", ""], ["revenue", "Credit", "Yes"]] _ rfl

/-- The signed contribution of one posting under a given normality. -/
def signedValue (kind : AccountKind) (entry : Entry) : Int :=
  reduceEntriesTotal kind 0 entry

theorem reduceEntriesTotal_eq_add (kind : AccountKind) (t : Int) (e : Entry) :
    reduceEntriesTotal kind t e = t + signedValue kind e := by
  cases kind <;> cases he : e.type <;>
    simp [reduceEntriesTotal, signedValue, he] <;> omega

theorem foldl_reduceEntriesTotal (kind : AccountKind) (l : List Entry) (t : Int) :
    l.foldl (reduceEntriesTotal kind) t = t + (l.map (signedValue kind)).sum := by
  induction l generalizing t with
  | nil => simp
  | cons e rest ih =>
    rw [List.foldl_cons, ih, reduceEntriesTotal_eq_add, List.map_cons, List.sum_cons]
    omega

theorem sum_map_zero {α : Type} (l : List α) : (l.map (fun _ => (0 : Int))).sum = 0 := by
  induction l with
  | nil => simp
  | cons hd tl ih => simp [ih]

theorem sum_map_add {α : Type} (l : List α) (f g : α → Int) :
    (l.map (fun x => f x + g x)).sum = (l.map f).sum + (l.map g).sum := by
  induction l with
  | nil => simp
  | cons hd tl ih => simp [ih]; omega

theorem sum_map_ite {α : Type} (l : List α) (pred : α → Bool) (v : Int) :
    (l.map (fun x => if pred x = true then v else 0)).sum = v * (l.countP pred) := by
  induction l with
  | nil => simp
  | cons hd tl ih =>
    rw [List.map_cons, List.sum_cons, ih, List.countP_cons]
    cases hp : pred hd <;> simp [hp] <;> ring

theorem findAccount_isSome_iff (a : Account) (n : String) :
    (findAccount a n).isSome = true ↔ ∃ D ∈ preOrderListForest a.children, D.name = n := by
  rw [findAccount_eq_find? a n, List.find?_isSome]
  simp

theorem countP_beq_unique (l : List Account)
    (hpair : l.Pairwise (fun a b => a.name ≠ b.name)) (a D : Account)
    (hD : D ∈ l) (haD : a = D) :
    l.countP (fun x => a == x) = 1 := by
  induction l with
  | nil => cases hD
  | cons hd tl ih =>
    rw [List.pairwise_cons] at hpair
    rw [List.countP_cons]
    rcases List.mem_cons.mp hD with heq | hmem
    · have hhd : (a == hd) = true := by rw [haD, heq]; simp
      have h0 : tl.countP (fun x => a == x) = 0 := by
        rw [List.countP_eq_zero]
        intro x hx hbeq
        have hDx : D = x := (haD.symm.trans (eq_of_beq hbeq))
        have hhdx : hd = x := heq.symm.trans hDx
        exact hpair.1 x hx (congrArg Account.name hhdx)
      simp [hhd, h0]
    · have hhd : (a == hd) = false := by
        cases hbeq : a == hd with
        | true =>
          have hh : hd = D := (eq_of_beq hbeq).symm.trans haD
          exact ((hpair.1 D hmem) (congrArg Account.name hh)).elim
        | false => rfl
      simp [hhd]
      exact ih hpair.2 hmem

/-- The roll-up sum as the spec's words state it: over all strict
descendants D of P, the postings directly on D (exact identity), signed
by P's kind. -/
def specRollupSum (P : Account) (p : Period) (c : Currency) (entries : List Entry) : Int :=
  ((preOrderListForest P.children).map (fun D =>
    (entries.filter (fun e =>
      e.account == D && isDateWithinPeriod e.date p && e.currency == c)).foldl
      (reduceEntriesTotal P.info.kind) 0)).sum

theorem isSubaccount_iff_exists (P x : Account) :
    isSubaccount P x = true ↔ ∃ D ∈ preOrderListForest P.children, D.name = x.name := by
  rw [← findAccount_isSome_iff]
  unfold isSubaccount
  cases findAccount P x.name <;> simp

theorem rollup_filter_split (P : Account) (p : Period) (c : Currency) :
    ∀ (entries : List Entry),
    (preOrderListForest P.children).Pairwise (fun a b => a.name ≠ b.name) →
    (∀ e ∈ entries, ∀ D ∈ preOrderListForest P.children,
      e.account.name = D.name → e.account = D) →
    ((preOrderListForest P.children).map (fun D =>
      ((entries.filter (fun e =>
        e.account == D && isDateWithinPeriod e.date p && e.currency == c)).map
        (signedValue P.info.kind)).sum)).sum
      = ((entries.filter (subaccountEntryFilter P p c)).map (signedValue P.info.kind)).sum := by
  intro entries
  induction entries with
  | nil => intro h1 h2; simp [sum_map_zero]
  | cons e rest ih =>
    intro h1 h2
    have hrest := ih h1 (fun x hx => h2 x (List.mem_cons_of_mem e hx))
    have hpoint : ∀ D : Account,
        (((e :: rest).filter (fun e' =>
          e'.account == D && isDateWithinPeriod e'.date p && e'.currency == c)).map
          (signedValue P.info.kind)).sum
        = (if (e.account == D && isDateWithinPeriod e.date p && e.currency == c) = true
            then signedValue P.info.kind e else 0)
          + ((rest.filter (fun e' =>
              e'.account == D && isDateWithinPeriod e'.date p && e'.currency == c)).map
              (signedValue P.info.kind)).sum := by
      intro D
      cases hpred : (e.account == D && isDateWithinPeriod e.date p && e.currency == c) <;>
        simp [List.filter_cons, hpred]
    rw [List.map_congr_left (fun D _ => hpoint D), sum_map_add, hrest]
    cases hdate : isDateWithinPeriod e.date p with
    | false =>
      have hsf : subaccountEntryFilter P p c e = false := by
        simp [subaccountEntryFilter, hdate]
      rw [List.filter_cons_of_neg (by simp [hsf])]
      simp [sum_map_zero]
    | true =>
      cases hcur : (e.currency == c) with
      | false =>
        have hsf : subaccountEntryFilter P p c e = false := by
          simp [subaccountEntryFilter, hcur]
        rw [List.filter_cons_of_neg (by simp [hsf])]
        simp [sum_map_zero]
      | true =>
        simp only [Bool.and_true]
        rw [sum_map_ite (preOrderListForest P.children) (fun D => e.account == D)
          (signedValue P.info.kind e)]
        cases hsub : isSubaccount P e.account with
        | true =>
          obtain ⟨D, hD, hDn⟩ := (isSubaccount_iff_exists P e.account).mp hsub
          have haD : e.account = D := h2 e (List.mem_cons_self e rest) D hD hDn.symm
          rw [countP_beq_unique _ h1 _ D hD haD]
          have hsf : subaccountEntryFilter P p c e = true := by
            simp [subaccountEntryFilter, hsub, hdate, hcur]
          rw [List.filter_cons_of_pos (by simp [hsf]), List.map_cons, List.sum_cons]
          ring
        | false =>
          have h0 : (preOrderListForest P.children).countP (fun D => e.account == D) = 0 := by
            rw [List.countP_eq_zero]
            intro D hD hbeq
            have haD : e.account = D := eq_of_beq hbeq
            have hx : isSubaccount P e.account = true :=
              (isSubaccount_iff_exists P e.account).mpr ⟨D, hD, (congrArg Account.name haD).symm⟩
            rw [hx] at hsub
            cases hsub
          rw [h0]
          have hsf : subaccountEntryFilter P p c e = false := by
            simp [subaccountEntryFilter, hsub]
          rw [List.filter_cons_of_neg (by simp [hsf])]
          ring

/-- Claim C2 (amended): the aggregator's stored `totalSubaccount` of P
selects subtree postings by account NAME (`isSubaccount` searches P's
strict subtree for the posting's account name); when names are
collision-free — the strict descendants of P carry pairwise distinct
names and every posting whose account name occurs in P's strict subtree
is (by identity) that subtree node — the stored value equals the sum
over all strict descendants D of P of the signed values (by P's own
kind, not D's) of the postings directly on D in the period and
currency. -/
theorem claim_C2_amended (P : Account) (ps : List Period) (cs : List Currency)
    (p : Period) (c : Currency) (entries : List Entry)
    (hp : p ∈ ps) (hc : c ∈ cs)
    (h1 : (preOrderListForest P.children).Pairwise (fun a b => a.name ≠ b.name))
    (h2 : ∀ e ∈ entries, ∀ D ∈ preOrderListForest P.children,
      e.account.name = D.name → e.account = D) :
    (getTotals (accountTotalsFor P ps cs entries) p c).totalSubaccount
      = specRollupSum P p c entries := by
  rw [getTotals_accountTotalsFor P ps cs entries p c hp hc]
  show totalSubaccountOf P p c entries = _
  unfold totalSubaccountOf specRollupSum
  rw [foldl_reduceEntriesTotal]
  have hpoint : ∀ D ∈ preOrderListForest P.children,
      (entries.filter (fun e =>
        e.account == D && isDateWithinPeriod e.date p && e.currency == c)).foldl
        (reduceEntriesTotal P.info.kind) 0
      = ((entries.filter (fun e =>
          e.account == D && isDateWithinPeriod e.date p && e.currency == c)).map
          (signedValue P.info.kind)).sum := by
    intro D _
    rw [foldl_reduceEntriesTotal]
    omega
  rw [List.map_congr_left hpoint, rollup_filter_split P p c entries h1 h2]
  omega

/-- Claim C2 (counterexample): P (normalCredit) has the single strict
descendant named `x`; a posting on a DIFFERENT account also named `x`
(not a descendant of P) is included in P's stored `totalSubaccount`
(= 5) although the sum over strict descendants of postings directly on
them is 0 — the claim's identity-based roll-up law fails. -/
theorem claim_C2_counterexample :
    (getTotals (accountTotalsFor
        (Account.mk "p" ⟨.normalCredit, .balanceSheet⟩
          [Account.mk "x" ⟨.normalCredit, .balanceSheet⟩ []])
        [⟨⟨0, 0⟩, ⟨1, 0⟩⟩] ["USD"]
        [⟨Account.mk "x" ⟨.normalDebit, .balanceSheet⟩ [], ⟨0, 1⟩, none, .credit, "USD", 5,
          ⟨⟨⟨0, 1⟩, "t", .default (Account.mk "x" ⟨.normalDebit, .balanceSheet⟩ [])
            (Account.mk "p" ⟨.normalCredit, .balanceSheet⟩
              [Account.mk "x" ⟨.normalCredit, .balanceSheet⟩ []]) "USD" 5⟩⟩⟩])
        ⟨⟨0, 0⟩, ⟨1, 0⟩⟩ "USD").totalSubaccount = 5 ∧
    specRollupSum (Account.mk "p" ⟨.normalCredit, .balanceSheet⟩
        [Account.mk "x" ⟨.normalCredit, .balanceSheet⟩ []])
      ⟨⟨0, 0⟩, ⟨1, 0⟩⟩ "USD"
      [⟨Account.mk "x" ⟨.normalDebit, .balanceSheet⟩ [], ⟨0, 1⟩, none, .credit, "USD", 5,
        ⟨⟨⟨0, 1⟩, "t", .default (Account.mk "x" ⟨.normalDebit, .balanceSheet⟩ [])
          (Account.mk "p" ⟨.normalCredit, .balanceSheet⟩
            [Account.mk "x" ⟨.normalCredit, .balanceSheet⟩ []]) "USD" 5⟩⟩⟩] = 0 ∧
    (5 : Int) ≠ 0 := by
  refine ⟨by decide, by decide, by decide⟩

theorem claim_C2_witness :
    (getTotals (accountTotalsFor
        (Account.mk "p" ⟨.normalCredit, .balanceSheet⟩
          [Account.mk "s" ⟨.normalCredit, .balanceSheet⟩ []])
        [⟨⟨0, 0⟩, ⟨1, 0⟩⟩] ["USD"]
        [⟨Account.mk "s" ⟨.normalCredit, .balanceSheet⟩ [], ⟨0, 1⟩, none, .credit, "USD", 7,
          ⟨⟨⟨0, 1⟩, "t", .default (Account.mk "s" ⟨.normalCredit, .balanceSheet⟩ [])
            (Account.mk "p" ⟨.normalCredit, .balanceSheet⟩
              [Account.mk "s" ⟨.normalCredit, .balanceSheet⟩ []]) "USD" 7⟩⟩⟩])
        ⟨⟨0, 0⟩, ⟨1, 0⟩⟩ "USD").totalSubaccount
      = specRollupSum (Account.mk "p" ⟨.normalCredit, .balanceSheet⟩
          [Account.mk "s" ⟨.normalCredit, .balanceSheet⟩ []])
        ⟨⟨0, 0⟩, ⟨1, 0⟩⟩ "USD"
        [⟨Account.mk "s" ⟨.normalCredit, .balanceSheet⟩ [], ⟨0, 1⟩, none, .credit, "USD", 7,
          ⟨⟨⟨0, 1⟩, "t", .default (Account.mk "s" ⟨.normalCredit, .balanceSheet⟩ [])
            (Account.mk "p" ⟨.normalCredit, .balanceSheet⟩
              [Account.mk "s" ⟨.normalCredit, .balanceSheet⟩ []]) "USD" 7⟩⟩⟩] :=
  claim_C2_amended _ _ _ _ _ _ (by simp) (by simp) (by decide) (by decide)

/-- The ordering the ledger sort establishes: JS
`(a, b) => (a.date < b.date ? -1 : 1)` orders entries by non-decreasing
date (ties in arbitrary relative order); the sort is modelled as an
insertion sort with respect to this non-strict date order. -/
def rawEntryLe (a b : RawEntry) : Prop := dateLe a.date b.date

instance : DecidableRel rawEntryLe :=
  fun a b => inferInstanceAs (Decidable (dateLe a.date b.date))

instance : IsTotal RawEntry rawEntryLe := ⟨fun a b => dateLe_total a.date b.date⟩

instance : IsTrans RawEntry rawEntryLe := ⟨fun _ _ _ h1 h2 => dateLe_trans h1 h2⟩

/-- A transaction row of a `General Ledger` table
(`src/index.ts` lines 80-98); absent cells are `""`, a row whose
debit or credit account name does not resolve is dropped. -/
def parseGeneralRow (tree : AccountTree) (pd : String → DateJS) (pn : String → Int)
    (currency : Currency) (row : List String) : Option RawEntry :=
  match findAccountInAccountTree tree (row.getD 2 ""),
      findAccountInAccountTree tree (row.getD 3 "") with
  | some debitAccount, some creditAccount =>
    some ⟨pd (row.getD 0 ""), row.getD 1 "",
      .default debitAccount creditAccount currency (pn (row.getD 4 ""))⟩
  | _, _ => none

/-- A transaction row of a `Liability Ledger` table
(`src/index.ts` lines 100-119). -/
def parseLiabilityRow (tree : AccountTree) (pd : String → DateJS) (pn : String → Int)
    (currency : Currency) (row : List String) : Option RawEntry :=
  match findAccountInAccountTree tree (row.getD 2 ""),
      findAccountInAccountTree tree (row.getD 3 "") with
  | some debitAccount, some creditAccount =>
    some ⟨pd (row.getD 0 ""), row.getD 1 "",
      .liability debitAccount creditAccount currency (pn (row.getD 4 ""))
        (pd (row.getD 5 ""))⟩
  | _, _ => none

/-- A transaction row of an `Exchange Ledger` table
(`src/index.ts` lines 121-153). -/
def parseExchangeRow (tree : AccountTree) (pd : String → DateJS) (pn : String → Int)
    (row : List String) : Option RawEntry :=
  match findAccountInAccountTree tree (row.getD 2 ""),
      findAccountInAccountTree tree (row.getD 3 ""),
      findAccountInAccountTree tree (row.getD 4 "") with
  | some debitAccount, some creditAccount, some exchangeAccount =>
    some ⟨pd (row.getD 0 ""), row.getD 1 "",
      .exchange debitAccount creditAccount exchangeAccount
        (pn (row.getD 6 "")) (row.getD 5 "") (pn (row.getD 8 "")) (row.getD 7 "")⟩
  | _, _, _ => none

/-- The per-table body of `parseLedgerTablesFromSheets` after the header
has been read: dispatch on the ledger type and parse each remaining
transaction row independently. -/
def parseWithHeader (tree : AccountTree) (pd : String → DateJS) (pn : String → Int)
    (header : List String) (txs : List (List String)) : List RawEntry :=
  if header.getD 1 "" = "General Ledger" then
    txs.filterMap (parseGeneralRow tree pd pn (header.getD 3 ""))
  else if header.getD 1 "" = "Liability Ledger" then
    txs.filterMap (parseLiabilityRow tree pd pn (header.getD 3 ""))
  else if header.getD 1 "" = "Exchange Ledger" then
    txs.filterMap (parseExchangeRow tree pd pn)
  else []

/-- One ledger table (`src/index.ts` lines 73-156): filter blank-first
rows, read the 2-row header (`[_, ledgerType, _, currency]`, then a
skipped sub-header), then parse the transaction rows. -/
def parseLedgerTable (tree : AccountTree) (pd : String → DateJS) (pn : String → Int)
    (ledgerTable : List (List String)) : List RawEntry :=
  match ledgerTable.filter nonEmptyRowFilter with
  | [] => []
  | header :: rest => parseWithHeader tree pd pn header (rest.drop 1)

/-- `parseLedgerTablesFromSheets` (`src/index.ts` lines 68-159):
concatenate the per-table raw entries in table order, then sort by date
(the JS comparator `a.date < b.date ? -1 : 1`, modelled as an insertion
sort by `rawEntryLe`).  The date and number parsing of the host
(`new Date`, unary `+`) are the parameters `pd` and `pn`. -/
def parseLedgerTablesFromSheets (tree : AccountTree) (pd : String → DateJS)
    (pn : String → Int) (ledgerTables : List (List (List String))) : List RawEntry :=
  List.insertionSort rawEntryLe ((ledgerTables.map (parseLedgerTable tree pd pn)).flatten)

/-- Two ledger tables that differ only by a permutation of their
transaction rows: same (filtered) header row, same presence of the
skipped sub-header, permuted remaining rows. -/
def TablePerm (t1 t2 : List (List String)) : Prop :=
  (t1.filter nonEmptyRowFilter).head? = (t2.filter nonEmptyRowFilter).head? ∧
  ((t1.filter nonEmptyRowFilter).tail.drop 1).Perm ((t2.filter nonEmptyRowFilter).tail.drop 1)

theorem parseLedgerTable_perm (tree : AccountTree) (pd : String → DateJS) (pn : String → Int)
    (t1 t2 : List (List String)) (h : TablePerm t1 t2) :
    (parseLedgerTable tree pd pn t1).Perm (parseLedgerTable tree pd pn t2) := by
  obtain ⟨hhead, hperm⟩ := h
  unfold parseLedgerTable
  cases h1 : t1.filter nonEmptyRowFilter with
  | nil =>
    rw [h1] at hhead
    cases h2 : t2.filter nonEmptyRowFilter with
    | nil => exact List.Perm.refl _
    | cons hd tl => rw [h2] at hhead; simp at hhead
  | cons hd1 tl1 =>
    rw [h1] at hhead hperm
    cases h2 : t2.filter nonEmptyRowFilter with
    | nil => rw [h2] at hhead; simp at hhead
    | cons hd2 tl2 =>
      rw [h2] at hhead hperm
      simp only [List.head?_cons, Option.some.injEq] at hhead
      simp only [List.tail_cons] at hperm
      subst hhead
      unfold parseWithHeader
      by_cases hg : hd1.getD 1 "" = "General Ledger"
      · simp only [if_pos hg]
        exact hperm.filterMap _
      · by_cases hl : hd1.getD 1 "" = "Liability Ledger"
        · simp only [if_neg hg, if_pos hl]
          exact hperm.filterMap _
        · by_cases he : hd1.getD 1 "" = "Exchange Ledger"
          · simp only [if_neg hg, if_neg hl, if_pos he]
            exact hperm.filterMap _
          · simp only [if_neg hg, if_neg hl, if_neg he]
            exact List.Perm.refl _

theorem forall2_perm_flatten {α : Type} :
    ∀ (l1 l2 : List (List α)), List.Forall₂ (fun a b => a.Perm b) l1 l2 →
      l1.flatten.Perm l2.flatten := by
  intro l1 l2 h
  induction h with
  | nil => exact List.Perm.refl _
  | cons hab _ ih =>
    simp only [List.flatten_cons]
    exact hab.append ih

theorem sorted_head_date_eq (r : RawEntry → RawEntry → Prop)
    (hanti : ∀ a b, r a b → r b a → a.date = b.date) :
    ∀ (l1 l2 : List RawEntry), l1.Sorted r → l2.Sorted r → l1.Perm l2 →
      l1.head?.map (fun x => x.date) = l2.head?.map (fun x => x.date) := by
  intro l1 l2 h1 h2 hperm
  cases l1 with
  | nil =>
    have := hperm.nil_eq
    simp [← this]
  | cons a1 t1 =>
    cases l2 with
    | nil => exact absurd hperm.symm.nil_eq (by simp)
    | cons a2 t2 =>
      simp only [List.head?_cons, Option.map_some', Option.some.injEq]
      have hm1 : a1 ∈ a2 :: t2 := hperm.mem_iff.mp (List.mem_cons_self a1 t1)
      have hm2 : a2 ∈ a1 :: t1 := hperm.mem_iff.mpr (List.mem_cons_self a2 t2)
      have h21 : r a2 a1 ∨ a2 = a1 := by
        rcases List.mem_cons.mp hm1 with he | hmem
        · exact Or.inr he.symm
        · exact Or.inl (List.rel_of_sorted_cons h2 a1 hmem)
      have h12 : r a1 a2 ∨ a1 = a2 := by
        rcases List.mem_cons.mp hm2 with he | hmem
        · exact Or.inr he.symm
        · exact Or.inl (List.rel_of_sorted_cons h1 a2 hmem)
      rcases h12 with h12 | he
      · rcases h21 with h21 | he
        · exact hanti a1 a2 h12 h21
        · rw [he]
      · rw [he]

theorem sorted_getLast_date_eq :
    ∀ (l1 l2 : List RawEntry), l1.Sorted rawEntryLe → l2.Sorted rawEntryLe → l1.Perm l2 →
      l1.getLast?.map (fun x => x.date) = l2.getLast?.map (fun x => x.date) := by
  intro l1 l2 h1 h2 hperm
  rw [← List.head?_reverse, ← List.head?_reverse]
  refine sorted_head_date_eq (fun a b => rawEntryLe b a)
    (fun a b hab hba => dateLe_antisymm hba hab) l1.reverse l2.reverse ?_ ?_
    ((l1.reverse_perm).trans (hperm.trans (l2.reverse_perm).symm))
  · exact (List.pairwise_reverse).mpr h1
  · exact (List.pairwise_reverse).mpr h2

theorem processRawEntries_ne_nil (r : RawEntry) (t : List RawEntry) :
    processRawEntries (r :: t) ≠ [] := by
  unfold processRawEntries
  cases hd : r.data <;> simp [expandRawEntry, hd]

theorem processRawEntries_head_date (l : List RawEntry) :
    (processRawEntries l).head?.map (fun e => e.date) = l.head?.map (fun x => x.date) := by
  cases l with
  | nil => rfl
  | cons r t =>
    unfold processRawEntries
    cases hd : r.data <;> simp [expandRawEntry, hd]

theorem processRawEntries_getLast_date :
    ∀ (l : List RawEntry),
      (processRawEntries l).getLast?.map (fun e => e.date) = l.getLast?.map (fun x => x.date) := by
  intro l
  induction l with
  | nil => rfl
  | cons r t ih =>
    cases t with
    | nil =>
      show (expandRawEntry r ++ processRawEntries []).getLast?.map (fun e => e.date) = _
      cases hd : r.data <;> simp [expandRawEntry, hd, processRawEntries]
    | cons r2 t2 =>
      show ((expandRawEntry r ++ processRawEntries (r2 :: t2)).getLast?.map
        (fun e => e.date)) = _
      rw [List.getLast?_append]
      cases hlast : (processRawEntries (r2 :: t2)).getLast? with
      | none =>
        exact absurd (List.getLast?_eq_none_iff.mp hlast) (processRawEntries_ne_nil r2 t2)
      | some g =>
        rw [hlast] at ih
        simp only [Option.or_some]
        rw [List.getLast?_cons_cons]
        exact ih

theorem makeMonthlyAccountingPeriods_congr (l1 l2 : List Entry)
    (hh : l1.head?.map (fun e => e.date) = l2.head?.map (fun e => e.date))
    (hl : l1.getLast?.map (fun e => e.date) = l2.getLast?.map (fun e => e.date)) :
    makeMonthlyAccountingPeriods l1 = makeMonthlyAccountingPeriods l2 := by
  unfold makeMonthlyAccountingPeriods
  cases hh1 : l1.head? with
  | none =>
    rw [hh1] at hh
    cases hh2 : l2.head? with
    | none => rfl
    | some e2 => rw [hh2] at hh; simp at hh
  | some e1 =>
    rw [hh1] at hh
    cases hh2 : l2.head? with
    | none => rw [hh2] at hh; simp at hh
    | some e2 =>
      rw [hh2] at hh
      simp only [Option.map_some', Option.some.injEq] at hh
      cases hl1 : l1.getLast? with
      | none =>
        rw [hl1] at hl
        cases hl2 : l2.getLast? with
        | none => rfl
        | some g2 => rw [hl2] at hl; simp at hl
      | some g1 =>
        rw [hl1] at hl
        cases hl2 : l2.getLast? with
        | none => rw [hl2] at hl; simp at hl
        | some g2 =>
          rw [hl2] at hl
          simp only [Option.map_some', Option.some.injEq] at hl
          dsimp only
          rw [hh, hl]

theorem sorted_head_min (l : List RawEntry) (hs : l.Sorted rawEntryLe) :
    ∀ h ∈ l.head?, ∀ x ∈ l, dateLe h.date x.date := by
  intro h hh x hx
  cases l with
  | nil => cases hh
  | cons a t =>
    simp only [List.head?_cons, Option.mem_def, Option.some.injEq] at hh
    subst hh
    rcases List.mem_cons.mp hx with he | hmem
    · rw [he]; exact dateLe_refl _
    · exact List.rel_of_sorted_cons hs x hmem

theorem sorted_last_max (l : List RawEntry) (hs : l.Sorted rawEntryLe) :
    ∀ g ∈ l.getLast?, ∀ x ∈ l, dateLe x.date g.date := by
  intro g hg x hx
  rw [← List.head?_reverse] at hg
  have hrev : l.reverse.Sorted (fun a b => rawEntryLe b a) := List.pairwise_reverse.mpr hs
  have hxrev : x ∈ l.reverse := List.mem_reverse.mpr hx
  cases hr : l.reverse with
  | nil => rw [hr] at hg; cases hg
  | cons a t =>
    rw [hr] at hg hxrev hrev
    simp only [List.head?_cons, Option.mem_def, Option.some.injEq] at hg
    subst hg
    rcases List.mem_cons.mp hxrev with he | hmem
    · rw [he]; exact dateLe_refl _
    · exact List.rel_of_sorted_cons hrev x hmem

theorem forall2_tablePerm_map (tree : AccountTree) (pd : String → DateJS)
    (pn : String → Int) : ∀ {l1 l2 : List (List (List String))},
    List.Forall₂ TablePerm l1 l2 →
    List.Forall₂ (fun a b => a.Perm b)
      (l1.map (parseLedgerTable tree pd pn)) (l2.map (parseLedgerTable tree pd pn)) := by
  intro l1 l2 h
  induction h with
  | nil => exact List.Forall₂.nil
  | cons hab _ ih => exact List.Forall₂.cons (parseLedgerTable_perm tree pd pn _ _ hab) ih

/-- Claim C10: the raw entry list returned by `parseLedgerTablesFromSheets`
is sorted by date in non-decreasing order, its first entry carries the
globally earliest and its last entry the globally latest transaction
date, and the accounting periods derived from it are invariant under any
permutation of the transaction rows within the tables and of the tables
themselves. -/
theorem claim_C10 (tree : AccountTree) (pd : String → DateJS) (pn : String → Int)
    (tables1 mid tables2 : List (List (List String)))
    (hpt : List.Forall₂ TablePerm tables1 mid) (hperm : mid.Perm tables2) :
    (parseLedgerTablesFromSheets tree pd pn tables1).Sorted rawEntryLe ∧
    (∀ h ∈ (parseLedgerTablesFromSheets tree pd pn tables1).head?,
      ∀ x ∈ parseLedgerTablesFromSheets tree pd pn tables1, dateLe h.date x.date) ∧
    (∀ g ∈ (parseLedgerTablesFromSheets tree pd pn tables1).getLast?,
      ∀ x ∈ parseLedgerTablesFromSheets tree pd pn tables1, dateLe x.date g.date) ∧
    makeMonthlyAccountingPeriods
        (processRawEntries (parseLedgerTablesFromSheets tree pd pn tables1))
      = makeMonthlyAccountingPeriods
        (processRawEntries (parseLedgerTablesFromSheets tree pd pn tables2)) := by
  have hs1 : (parseLedgerTablesFromSheets tree pd pn tables1).Sorted rawEntryLe :=
    List.sorted_insertionSort rawEntryLe _
  have hs2 : (parseLedgerTablesFromSheets tree pd pn tables2).Sorted rawEntryLe :=
    List.sorted_insertionSort rawEntryLe _
  refine ⟨hs1, sorted_head_min _ hs1, sorted_last_max _ hs1, ?_⟩
  have hmap : List.Forall₂ (fun a b => a.Perm b)
      (tables1.map (parseLedgerTable tree pd pn)) (mid.map (parseLedgerTable tree pd pn)) :=
    forall2_tablePerm_map tree pd pn hpt
  have hflat : ((tables1.map (parseLedgerTable tree pd pn)).flatten).Perm
      ((tables2.map (parseLedgerTable tree pd pn)).flatten) :=
    (forall2_perm_flatten _ _ hmap).trans (hperm.map (parseLedgerTable tree pd pn)).flatten
  have hperm12 : (parseLedgerTablesFromSheets tree pd pn tables1).Perm
      (parseLedgerTablesFromSheets tree pd pn tables2) := by
    unfold parseLedgerTablesFromSheets
    exact (List.perm_insertionSort rawEntryLe _).trans
      (hflat.trans (List.perm_insertionSort rawEntryLe _).symm)
  have hhead := sorted_head_date_eq rawEntryLe (fun a b h1 h2 => dateLe_antisymm h1 h2)
    _ _ hs1 hs2 hperm12
  have hlast := sorted_getLast_date_eq _ _ hs1 hs2 hperm12
  refine makeMonthlyAccountingPeriods_congr _ _ ?_ ?_
  · rw [processRawEntries_head_date, processRawEntries_head_date]; exact hhead
  · rw [processRawEntries_getLast_date, processRawEntries_getLast_date]; exact hlast

theorem claim_C10_witness :
    (parseLedgerTablesFromSheets (AccountTree.mk [Account.mk "a" ⟨.normalDebit, .balanceSheet⟩ [], Account.mk "b" ⟨.normalCredit, .balanceSheet⟩ []]) (fun s => if s = "jan" then (⟨0, 1⟩ : DateJS) else ⟨1, 2⟩) (fun s => if s = "5" then (5 : Int) else 7) [[["x", "General Ledger", "x", "USD"], ["sub"], ["jan", "t1", "a", "b", "5"], ["feb", "t2", "b", "a", "7"]]]).Sorted rawEntryLe ∧
    (∀ h ∈ (parseLedgerTablesFromSheets (AccountTree.mk [Account.mk "a" ⟨.normalDebit, .balanceSheet⟩ [], Account.mk "b" ⟨.normalCredit, .balanceSheet⟩ []]) (fun s => if s = "jan" then (⟨0, 1⟩ : DateJS) else ⟨1, 2⟩) (fun s => if s = "5" then (5 : Int) else 7) [[["x", "General Ledger", "x", "USD"], ["sub"], ["jan", "t1", "a", "b", "5"], ["feb", "t2", "b", "a", "7"]]]).head?,
      ∀ x ∈ parseLedgerTablesFromSheets (AccountTree.mk [Account.mk "a" ⟨.normalDebit, .balanceSheet⟩ [], Account.mk "b" ⟨.normalCredit, .balanceSheet⟩ []]) (fun s => if s = "jan" then (⟨0, 1⟩ : DateJS) else ⟨1, 2⟩) (fun s => if s = "5" then (5 : Int) else 7) [[["x", "General Ledger", "x", "USD"], ["sub"], ["jan", "t1", "a", "b", "5"], ["feb", "t2", "b", "a", "7"]]], dateLe h.date x.date) ∧
    (∀ g ∈ (parseLedgerTablesFromSheets (AccountTree.mk [Account.mk "a" ⟨.normalDebit, .balanceSheet⟩ [], Account.mk "b" ⟨.normalCredit, .balanceSheet⟩ []]) (fun s => if s = "jan" then (⟨0, 1⟩ : DateJS) else ⟨1, 2⟩) (fun s => if s = "5" then (5 : Int) else 7) [[["x", "General Ledger", "x", "USD"], ["sub"], ["jan", "t1", "a", "b", "5"], ["feb", "t2", "b", "a", "7"]]]).getLast?,
      ∀ x ∈ parseLedgerTablesFromSheets (AccountTree.mk [Account.mk "a" ⟨.normalDebit, .balanceSheet⟩ [], Account.mk "b" ⟨.normalCredit, .balanceSheet⟩ []]) (fun s => if s = "jan" then (⟨0, 1⟩ : DateJS) else ⟨1, 2⟩) (fun s => if s = "5" then (5 : Int) else 7) [[["x", "General Ledger", "x", "USD"], ["sub"], ["jan", "t1", "a", "b", "5"], ["feb", "t2", "b", "a", "7"]]], dateLe x.date g.date) ∧
    makeMonthlyAccountingPeriods
        (processRawEntries (parseLedgerTablesFromSheets (AccountTree.mk [Account.mk "a" ⟨.normalDebit, .balanceSheet⟩ [], Account.mk "b" ⟨.normalCredit, .balanceSheet⟩ []]) (fun s => if s = "jan" then (⟨0, 1⟩ : DateJS) else ⟨1, 2⟩) (fun s => if s = "5" then (5 : Int) else 7) [[["x", "General Ledger", "x", "USD"], ["sub"], ["jan", "t1", "a", "b", "5"], ["feb", "t2", "b", "a", "7"]]]))
      = makeMonthlyAccountingPeriods
        (processRawEntries (parseLedgerTablesFromSheets (AccountTree.mk [Account.mk "a" ⟨.normalDebit, .balanceSheet⟩ [], Account.mk "b" ⟨.normalCredit, .balanceSheet⟩ []]) (fun s => if s = "jan" then (⟨0, 1⟩ : DateJS) else ⟨1, 2⟩) (fun s => if s = "5" then (5 : Int) else 7) [[["x", "General Ledger", "x", "USD"], ["sub"], ["feb", "t2", "b", "a", "7"], ["jan", "t1", "a", "b", "5"]]])) :=
  claim_C10 (AccountTree.mk [Account.mk "a" ⟨.normalDebit, .balanceSheet⟩ [], Account.mk "b" ⟨.normalCredit, .balanceSheet⟩ []]) (fun s => if s = "jan" then (⟨0, 1⟩ : DateJS) else ⟨1, 2⟩) (fun s => if s = "5" then (5 : Int) else 7) [[["x", "General Ledger", "x", "USD"], ["sub"], ["jan", "t1", "a", "b", "5"], ["feb", "t2", "b", "a", "7"]]] [[["x", "General Ledger", "x", "USD"], ["sub"], ["feb", "t2", "b", "a", "7"], ["jan", "t1", "a", "b", "5"]]] [[["x", "General Ledger", "x", "USD"], ["sub"], ["feb", "t2", "b", "a", "7"], ["jan", "t1", "a", "b", "5"]]]
    (List.Forall₂.cons ⟨rfl, List.Perm.swap _ _ _⟩ List.Forall₂.nil)
    (List.Perm.refl _)

theorem AccountTraversalReduce_append {T : Type} (g : Account → T) :
    ∀ (a : Account) (acc : List T),
      AccountTraversalReduce a acc (fun x l => l ++ [g x]) (fun _ l => l)
        = acc ++ (preOrderList a).map g := by
  intro a
  induction a using Account.inductionOn with
  | _ n i cs ih =>
    intro acc
    unfold AccountTraversalReduce
    have hlist : ∀ (l : List Account), (∀ c ∈ l, ∀ acc2,
        AccountTraversalReduce c acc2 (fun x l2 => l2 ++ [g x]) (fun _ l2 => l2)
          = acc2 ++ (preOrderList c).map g) →
        ∀ acc2, AccountTraversalReduceList l acc2 (fun x l2 => l2 ++ [g x]) (fun _ l2 => l2)
          = acc2 ++ (preOrderListForest l).map g := by
      intro l
      induction l with
      | nil => intro _ acc2; simp [AccountTraversalReduceList, preOrderListForest]
      | cons c rest ihl =>
        intro hmem acc2
        unfold AccountTraversalReduceList
        rw [hmem c (List.mem_cons_self c rest) acc2,
          ihl (fun x hx => hmem x (List.mem_cons_of_mem c hx))]
        simp [preOrderListForest]
    rw [hlist cs (fun c hc => ih c hc) (acc ++ [g (Account.mk n i cs)])]
    simp [preOrderList, Account.children]

theorem AccountTraversalReduce_foldl {T : Type} (g : Account → T) (accounts : List Account) :
    ∀ (acc : List T),
      accounts.foldl (fun list account =>
        AccountTraversalReduce account list (fun x l => l ++ [g x]) (fun _ l => l)) acc
      = acc ++ (preOrderListForest accounts).map g := by
  induction accounts with
  | nil => intro acc; simp [preOrderListForest]
  | cons a rest ih =>
    intro acc
    rw [List.foldl_cons, AccountTraversalReduce_append g a acc, ih]
    simp [preOrderListForest]

theorem accountTotalsByPeriodAndCurrency_eq (accounts : List Account)
    (ps : List Period) (cs : List Currency) (entries : List Entry) :
    accountTotalsByPeriodAndCurrency accounts ps cs entries
      = (preOrderListForest accounts).map
          (fun a => ⟨a, accountTotalsFor a ps cs entries⟩) := by
  unfold accountTotalsByPeriodAndCurrency
  exact AccountTraversalReduce_foldl _ accounts []

theorem accountTotalsByPeriodAndCurrencyBS_eq (accounts : List Account)
    (ps : List Period) (cs : List Currency) (entries : List Entry) :
    accountTotalsByPeriodAndCurrencyBS accounts ps cs entries
      = (preOrderListForest accounts).map
          (fun a => ⟨a, accountTotalsForBS a ps cs entries⟩) := by
  unfold accountTotalsByPeriodAndCurrencyBS
  exact AccountTraversalReduce_foldl _ accounts []

theorem find?_account_graph (f : Account → AccountTotalByPeriod) (l : List Account) (a : Account)
    (ha : a ∈ l) :
    (l.map (fun b => AccountTotals.mk b (f b))).find? (fun x => x.account == a)
      = some ⟨a, f a⟩ := by
  induction l with
  | nil => cases ha
  | cons hd tl ih =>
    rw [List.map_cons]
    cases hbeq : hd == a with
    | true =>
      have : hd = a := eq_of_beq hbeq
      subst this
      rw [List.find?_cons_of_pos _ (by simp)]
    | false =>
      have hne : hd ≠ a := fun h => by rw [h] at hbeq; simp at hbeq
      have hmem : a ∈ tl := by
        rcases List.mem_cons.mp ha with he | hm
        · exact absurd he.symm hne
        · exact hm
      rw [List.find?_cons_of_neg _ (by simp [hbeq]), ih hmem]

/-- A spreadsheet output cell (`SheetsReturnType` in `src/index.ts`). -/
inductive SCell where
  | str (s : String)
  | num (n : Int)
  | date (d : DateJS)
deriving DecidableEq, Repr

/-- The indentation token pushed per nesting level (`'\t\t\t\t'`). -/
def indentToken : String := "\t\t\t\t"

/-- Replace the first occurrence of `pat` (as a character list) in `s`. -/
def listReplaceFirst (pat rep : List Char) : List Char → List Char
  | [] => []
  | c :: rest =>
    if pat ≠ [] ∧ (c :: rest).take pat.length = pat then rep ++ (c :: rest).drop pat.length
    else c :: listReplaceFirst pat rep rest

/-- JS `String.prototype.replace` with a string pattern: replace the
first occurrence only. -/
def replaceFirst (s pat rep : String) : String :=
  ⟨listReplaceFirst pat.data rep.data s.data⟩

/-- The `byAccount.find(({account: toFind}) => toFind === account)!.totals`
lookup of the report builders; the `[]` default models the non-null
assertion, unreachable when `byAccount` covers the traversed account. -/
def lookupTotals (byAccount : List AccountTotals) (account : Account) : AccountTotalByPeriod :=
  ((byAccount.find? (fun x => x.account == account)).map (fun x => x.totals)).getD []

mutual
/-- The per-account traversal section of `createMonthlyIncomeStatement`
(`src/index.ts` lines 289-321), with the `preOrderTraversalMap` table
pushes rendered as an explicit row list: on entry one row of
`totalAccount` cells (period-major, currency-minor), then the children's
rows at one more indent level, then — only when the node has children —
a `TOTAL:` roll-up row of `totalAccount + totalSubaccount` cells. -/
def incomeAccountRows (byAccount : List AccountTotals) (ps : List Period)
    (cs : List Currency) : Account → String → List (List SCell)
  | .mk n i children, prefx =>
    (SCell.str (prefx ++ n)
        :: ps.flatMap (fun p => cs.map (fun c =>
          SCell.num (getTotals (lookupTotals byAccount (.mk n i children)) p c).totalAccount)))
      :: (incomeAccountRowsList byAccount ps cs children (prefx ++ indentToken)
        ++ (if children.isEmpty then []
          else [SCell.str (replaceFirst (prefx ++ indentToken) indentToken ""
                ++ "TOTAL: " ++ n)
              :: ps.flatMap (fun p => cs.map (fun c =>
                SCell.num ((getTotals (lookupTotals byAccount (.mk n i children)) p c).totalAccount
                  + (getTotals (lookupTotals byAccount (.mk n i children)) p
                      c).totalSubaccount)))]))
termination_by structural a _ => a

/-- Sibling traversal of `incomeAccountRows` in list order. -/
def incomeAccountRowsList (byAccount : List AccountTotals) (ps : List Period)
    (cs : List Currency) : List Account → String → List (List SCell)
  | [], _ => []
  | c :: rest, prefx =>
    incomeAccountRows byAccount ps cs c prefx
      ++ incomeAccountRowsList byAccount ps cs rest prefx
termination_by structural l _ => l
end

mutual
/-- The per-account traversal section of `createMonthlyBalanceSheet`
(`src/index.ts` lines 430-487): nodes not classified `balanceSheet`
emit no rows (their subtrees are still traversed, at the unchanged
indent); a balance-sheet node emits an entry row whose cells show only
`totalAccount` when at least one child is balance-sheet-classified and
`totalAccount + totalSubaccount` otherwise, and emits a `TOTAL:`
roll-up row on exit only when at least one child is
balance-sheet-classified. -/
def balanceAccountRows (byAccount : List AccountTotals) (ps : List Period)
    (cs : List Currency) : Account → String → List (List SCell)
  | .mk n i children, prefx =>
    if i.statement != StatementKind.balanceSheet then
      balanceAccountRowsList byAccount ps cs children prefx
    else
      (match byAccount.find? (fun x => x.account == Account.mk n i children) with
        | none => [SCell.str "error acount has no entry", SCell.str n]
        | some t =>
          SCell.str (prefx ++ n)
            :: ps.flatMap (fun p => cs.map (fun c =>
              if children.any (fun ch => ch.info.statement == StatementKind.balanceSheet)
              then SCell.num (getTotals t.totals p c).totalAccount
              else SCell.num ((getTotals t.totals p c).totalAccount
                + (getTotals t.totals p c).totalSubaccount))))
        :: (balanceAccountRowsList byAccount ps cs children (prefx ++ indentToken)
          ++ (if children.any (fun ch => ch.info.statement == StatementKind.balanceSheet) then
              match byAccount.find? (fun x => x.account == Account.mk n i children) with
              | none => [[SCell.str "error aacount has no entry", SCell.str n]]
              | some t =>
                [SCell.str (replaceFirst (prefx ++ indentToken) indentToken ""
                    ++ "TOTAL: " ++ n)
                  :: ps.flatMap (fun p => cs.map (fun c =>
                    SCell.num ((getTotals t.totals p c).totalAccount
                      + (getTotals t.totals p c).totalSubaccount)))]
            else []))
termination_by structural a _ => a

/-- Sibling traversal of `balanceAccountRows` in list order. -/
def balanceAccountRowsList (byAccount : List AccountTotals) (ps : List Period)
    (cs : List Currency) : List Account → String → List (List SCell)
  | [], _ => []
  | c :: rest, prefx =>
    balanceAccountRows byAccount ps cs c prefx
      ++ balanceAccountRowsList byAccount ps cs rest prefx
termination_by structural l _ => l
end

theorem incomeAccountRowsList_eq_flatMap (byAccount : List AccountTotals) (ps : List Period)
    (cs : List Currency) : ∀ (l : List Account) (prefx : String),
    incomeAccountRowsList byAccount ps cs l prefx
      = l.flatMap (fun ch => incomeAccountRows byAccount ps cs ch prefx) := by
  intro l prefx
  induction l with
  | nil => rfl
  | cons c rest ih => simp only [incomeAccountRowsList, ih, List.flatMap_cons]

theorem balanceAccountRowsList_eq_flatMap (byAccount : List AccountTotals) (ps : List Period)
    (cs : List Currency) : ∀ (l : List Account) (prefx : String),
    balanceAccountRowsList byAccount ps cs l prefx
      = l.flatMap (fun ch => balanceAccountRows byAccount ps cs ch prefx) := by
  intro l prefx
  induction l with
  | nil => rfl
  | cons c rest ih => simp only [balanceAccountRowsList, ih, List.flatMap_cons]

theorem lookupTotals_eq (accounts : List Account) (ps : List Period) (cs : List Currency)
    (entries : List Entry) (a : Account) (ha : a ∈ preOrderListForest accounts) :
    lookupTotals (accountTotalsByPeriodAndCurrency accounts ps cs entries) a
      = accountTotalsFor a ps cs entries := by
  unfold lookupTotals
  rw [accountTotalsByPeriodAndCurrency_eq,
    find?_account_graph (fun b => accountTotalsFor b ps cs entries) _ a ha]
  rfl

theorem findTotalsBS_eq (accounts : List Account) (ps : List Period) (cs : List Currency)
    (entries : List Entry) (a : Account) (ha : a ∈ preOrderListForest accounts) :
    (accountTotalsByPeriodAndCurrencyBS accounts ps cs entries).find?
        (fun x => x.account == a)
      = some ⟨a, accountTotalsForBS a ps cs entries⟩ := by
  rw [accountTotalsByPeriodAndCurrencyBS_eq,
    find?_account_graph (fun b => accountTotalsForBS b ps cs entries) _ a ha]

theorem flatMap_map_congr (ps : List Period) (cs : List Currency)
    (f g : Period → Currency → SCell) (h : ∀ p ∈ ps, ∀ c ∈ cs, f p c = g p c) :
    ps.flatMap (fun p => cs.map (fun c => f p c))
      = ps.flatMap (fun p => cs.map (fun c => g p c)) := by
  induction ps with
  | nil => rfl
  | cons p rest ih =>
    simp only [List.flatMap_cons]
    rw [List.map_congr_left (fun c hc => h p (List.mem_cons_self p rest) c hc),
      ih (fun q hq c hc => h q (List.mem_cons_of_mem p hq) c hc)]

/-- Claim C7 (amended): on the income statement, every node emits an
entry row of `totalAccount` cells and — exactly when it has at least one
child — an exit roll-up row labelled with `TOTAL:` and
`totalAccount + totalSubaccount` cells (leaf nodes emit no exit row).
On the balance sheet, a node not classified `balanceSheet` emits no rows
of its own; a balance-sheet node emits the exit roll-up row exactly when
at least one child is balance-sheet-classified (not merely when it has a
child), and its entry row shows only `totalAccount` when such a child
exists and `totalAccount + totalSubaccount` otherwise. -/
theorem claim_C7_amended (accounts : List Account) (ps : List Period) (cs : List Currency)
    (entries : List Entry) (a : Account) (prefx : String)
    (ha : a ∈ preOrderListForest accounts) :
    (incomeAccountRows (accountTotalsByPeriodAndCurrency accounts ps cs entries) ps cs a prefx
      = (SCell.str (prefx ++ a.name)
          :: ps.flatMap (fun p => cs.map (fun c => SCell.num (totalAccountOf a p c entries))))
        :: (a.children.flatMap (fun ch =>
            incomeAccountRows (accountTotalsByPeriodAndCurrency accounts ps cs entries)
              ps cs ch (prefx ++ indentToken))
          ++ (if a.children.isEmpty then []
            else [SCell.str (replaceFirst (prefx ++ indentToken) indentToken ""
                  ++ "TOTAL: " ++ a.name)
                :: ps.flatMap (fun p => cs.map (fun c =>
                  SCell.num (totalAccountOf a p c entries
                    + totalSubaccountOf a p c entries)))]))) ∧
    (balanceAccountRows (accountTotalsByPeriodAndCurrencyBS accounts ps cs entries) ps cs a prefx
      = if a.info.statement != StatementKind.balanceSheet then
          a.children.flatMap (fun ch =>
            balanceAccountRows (accountTotalsByPeriodAndCurrencyBS accounts ps cs entries)
              ps cs ch prefx)
        else
          (SCell.str (prefx ++ a.name)
              :: ps.flatMap (fun p => cs.map (fun c =>
                if a.children.any (fun ch => ch.info.statement == StatementKind.balanceSheet)
                then SCell.num (totalAccountOfBS a p c entries)
                else SCell.num (totalAccountOfBS a p c entries
                  + totalSubaccountOfBS a p c entries))))
            :: (a.children.flatMap (fun ch =>
                balanceAccountRows (accountTotalsByPeriodAndCurrencyBS accounts ps cs entries)
                  ps cs ch (prefx ++ indentToken))
              ++ (if a.children.any (fun ch => ch.info.statement == StatementKind.balanceSheet)
                then [SCell.str (replaceFirst (prefx ++ indentToken) indentToken ""
                      ++ "TOTAL: " ++ a.name)
                    :: ps.flatMap (fun p => cs.map (fun c =>
                      SCell.num (totalAccountOfBS a p c entries
                        + totalSubaccountOfBS a p c entries)))]
                else []))) := by
  cases a with
  | mk n i ch =>
    have hA : ps.flatMap (fun p => cs.map (fun c =>
        SCell.num (getTotals (accountTotalsFor (Account.mk n i ch) ps cs entries)
          p c).totalAccount))
      = ps.flatMap (fun p => cs.map (fun c =>
        SCell.num (totalAccountOf (Account.mk n i ch) p c entries))) :=
      flatMap_map_congr ps cs _ _ (fun p hp c hc => by
        rw [getTotals_accountTotalsFor (Account.mk n i ch) ps cs entries p c hp hc])
    have hB : ps.flatMap (fun p => cs.map (fun c =>
        SCell.num ((getTotals (accountTotalsFor (Account.mk n i ch) ps cs entries)
            p c).totalAccount
          + (getTotals (accountTotalsFor (Account.mk n i ch) ps cs entries)
            p c).totalSubaccount)))
      = ps.flatMap (fun p => cs.map (fun c =>
        SCell.num (totalAccountOf (Account.mk n i ch) p c entries
          + totalSubaccountOf (Account.mk n i ch) p c entries))) :=
      flatMap_map_congr ps cs _ _ (fun p hp c hc => by
        rw [getTotals_accountTotalsFor (Account.mk n i ch) ps cs entries p c hp hc])
    have hC : ps.flatMap (fun p => cs.map (fun c =>
        if ch.any (fun c2 => c2.info.statement == StatementKind.balanceSheet)
        then SCell.num (getTotals (accountTotalsForBS (Account.mk n i ch) ps cs entries)
          p c).totalAccount
        else SCell.num ((getTotals (accountTotalsForBS (Account.mk n i ch) ps cs entries)
            p c).totalAccount
          + (getTotals (accountTotalsForBS (Account.mk n i ch) ps cs entries)
            p c).totalSubaccount)))
      = ps.flatMap (fun p => cs.map (fun c =>
        if ch.any (fun c2 => c2.info.statement == StatementKind.balanceSheet)
        then SCell.num (totalAccountOfBS (Account.mk n i ch) p c entries)
        else SCell.num (totalAccountOfBS (Account.mk n i ch) p c entries
          + totalSubaccountOfBS (Account.mk n i ch) p c entries))) :=
      flatMap_map_congr ps cs _ _ (fun p hp c hc => by
        rw [getTotals_accountTotalsForBS (Account.mk n i ch) ps cs entries p c hp hc])
    have hD : ps.flatMap (fun p => cs.map (fun c =>
        SCell.num ((getTotals (accountTotalsForBS (Account.mk n i ch) ps cs entries)
            p c).totalAccount
          + (getTotals (accountTotalsForBS (Account.mk n i ch) ps cs entries)
            p c).totalSubaccount)))
      = ps.flatMap (fun p => cs.map (fun c =>
        SCell.num (totalAccountOfBS (Account.mk n i ch) p c entries
          + totalSubaccountOfBS (Account.mk n i ch) p c entries))) :=
      flatMap_map_congr ps cs _ _ (fun p hp c hc => by
        rw [getTotals_accountTotalsForBS (Account.mk n i ch) ps cs entries p c hp hc])
    constructor
    · simp only [incomeAccountRows, Account.name, Account.children]
      rw [lookupTotals_eq accounts ps cs entries (Account.mk n i ch) ha]
      rw [incomeAccountRowsList_eq_flatMap, hA, hB]
    · simp only [balanceAccountRows, Account.name, Account.children, Account.info]
      simp only [Account.info] at hC hD
      by_cases hstmt : i.statement = StatementKind.balanceSheet
      · have hcond : ¬((i.statement != StatementKind.balanceSheet) = true) := by
          simp [hstmt]
        rw [if_neg hcond, if_neg hcond]
        rw [findTotalsBS_eq accounts ps cs entries (Account.mk n i ch) ha]
        dsimp only
        rw [balanceAccountRowsList_eq_flatMap, hC]
        by_cases hbs : (ch.any (fun c2 =>
            c2.info.statement == StatementKind.balanceSheet)) = true
        · simp only [Account.info] at hbs
          rw [if_pos hbs, if_pos hbs, hD]
        · simp only [Account.info] at hbs
          rw [if_neg hbs, if_neg hbs]
      · have hcond : (i.statement != StatementKind.balanceSheet) = true := by
          simp [hstmt]
        rw [if_pos hcond, if_pos hcond]
        rw [balanceAccountRowsList_eq_flatMap]

/-- Claim C7 (counterexample): on the balance sheet built over
`equity → Retained Earnings → revenue`, the `Retained Earnings` node has
a child yet emits NO exit roll-up row (its only child is
income-statement-classified): the emitted rows are exactly the `equity`
entry row, the `Retained Earnings` entry row and the `TOTAL: equity`
roll-up — no cell anywhere is a `TOTAL: Retained Earnings` label. -/
theorem claim_C7_counterexample :
    (Account.mk "Retained Earnings" ⟨.normalCredit, .balanceSheet⟩
      [Account.mk "revenue" ⟨.normalCredit, .incomeStatement⟩ []]).children ≠ [] ∧
    balanceAccountRows (accountTotalsByPeriodAndCurrencyBS
        [Account.mk "equity" ⟨.normalCredit, .balanceSheet⟩
        [Account.mk "Retained Earnings" ⟨.normalCredit, .balanceSheet⟩
          [Account.mk "revenue" ⟨.normalCredit, .incomeStatement⟩ []]]]
        [⟨⟨0, 0⟩, ⟨1, 0⟩⟩] ["USD"] [])
      [⟨⟨0, 0⟩, ⟨1, 0⟩⟩] ["USD"]
      (Account.mk "equity" ⟨.normalCredit, .balanceSheet⟩
        [Account.mk "Retained Earnings" ⟨.normalCredit, .balanceSheet⟩
          [Account.mk "revenue" ⟨.normalCredit, .incomeStatement⟩ []]]) ""
      = [[SCell.str "equity", SCell.num 0],
         [SCell.str "\t\t\t\tRetained Earnings", SCell.num 0],
         [SCell.str "TOTAL: equity", SCell.num 0]] ∧
    (∀ row ∈ [[SCell.str "equity", SCell.num 0],
         [SCell.str "\t\t\t\tRetained Earnings", SCell.num 0],
         [SCell.str "TOTAL: equity", SCell.num 0]], ∀ cell ∈ row,
      cell ≠ SCell.str "TOTAL: Retained Earnings" ∧
      cell ≠ SCell.str "\t\t\t\tTOTAL: Retained Earnings") := by
  refine ⟨by decide, by decide, by decide⟩

theorem claim_C7_witness :
    (incomeAccountRows (accountTotalsByPeriodAndCurrency [(Account.mk "assets" ⟨.normalDebit, .balanceSheet⟩ [])] [⟨⟨0, 0⟩, ⟨1, 0⟩⟩] ["USD"] []) [⟨⟨0, 0⟩, ⟨1, 0⟩⟩] ["USD"] (Account.mk "assets" ⟨.normalDebit, .balanceSheet⟩ []) ""
      = (SCell.str ("" ++ (Account.mk "assets" ⟨.normalDebit, .balanceSheet⟩ []).name)
          :: [(⟨⟨0, 0⟩, ⟨1, 0⟩⟩ : Period)].flatMap (fun p => ["USD"].map (fun c => SCell.num (totalAccountOf (Account.mk "assets" ⟨.normalDebit, .balanceSheet⟩ []) p c []))))
        :: ((Account.mk "assets" ⟨.normalDebit, .balanceSheet⟩ []).children.flatMap (fun ch =>
            incomeAccountRows (accountTotalsByPeriodAndCurrency [(Account.mk "assets" ⟨.normalDebit, .balanceSheet⟩ [])] [⟨⟨0, 0⟩, ⟨1, 0⟩⟩] ["USD"] [])
              [⟨⟨0, 0⟩, ⟨1, 0⟩⟩] ["USD"] ch ("" ++ indentToken))
          ++ (if (Account.mk "assets" ⟨.normalDebit, .balanceSheet⟩ []).children.isEmpty then []
            else [SCell.str (replaceFirst ("" ++ indentToken) indentToken ""
                  ++ "TOTAL: " ++ (Account.mk "assets" ⟨.normalDebit, .balanceSheet⟩ []).name)
                :: [(⟨⟨0, 0⟩, ⟨1, 0⟩⟩ : Period)].flatMap (fun p => ["USD"].map (fun c =>
                  SCell.num (totalAccountOf (Account.mk "assets" ⟨.normalDebit, .balanceSheet⟩ []) p c []
                    + totalSubaccountOf (Account.mk "assets" ⟨.normalDebit, .balanceSheet⟩ []) p c [])))]))) ∧
    (balanceAccountRows (accountTotalsByPeriodAndCurrencyBS [(Account.mk "assets" ⟨.normalDebit, .balanceSheet⟩ [])] [⟨⟨0, 0⟩, ⟨1, 0⟩⟩] ["USD"] []) [⟨⟨0, 0⟩, ⟨1, 0⟩⟩] ["USD"] (Account.mk "assets" ⟨.normalDebit, .balanceSheet⟩ []) ""
      = if (Account.mk "assets" ⟨.normalDebit, .balanceSheet⟩ []).info.statement != StatementKind.balanceSheet then
          (Account.mk "assets" ⟨.normalDebit, .balanceSheet⟩ []).children.flatMap (fun ch =>
            balanceAccountRows (accountTotalsByPeriodAndCurrencyBS [(Account.mk "assets" ⟨.normalDebit, .balanceSheet⟩ [])] [⟨⟨0, 0⟩, ⟨1, 0⟩⟩] ["USD"] [])
              [⟨⟨0, 0⟩, ⟨1, 0⟩⟩] ["USD"] ch "")
        else
          (SCell.str ("" ++ (Account.mk "assets" ⟨.normalDebit, .balanceSheet⟩ []).name)
              :: [(⟨⟨0, 0⟩, ⟨1, 0⟩⟩ : Period)].flatMap (fun p => ["USD"].map (fun c =>
                if (Account.mk "assets" ⟨.normalDebit, .balanceSheet⟩ []).children.any (fun ch => ch.info.statement == StatementKind.balanceSheet)
                then SCell.num (totalAccountOfBS (Account.mk "assets" ⟨.normalDebit, .balanceSheet⟩ []) p c [])
                else SCell.num (totalAccountOfBS (Account.mk "assets" ⟨.normalDebit, .balanceSheet⟩ []) p c []
                  + totalSubaccountOfBS (Account.mk "assets" ⟨.normalDebit, .balanceSheet⟩ []) p c []))))
            :: ((Account.mk "assets" ⟨.normalDebit, .balanceSheet⟩ []).children.flatMap (fun ch =>
                balanceAccountRows (accountTotalsByPeriodAndCurrencyBS [(Account.mk "assets" ⟨.normalDebit, .balanceSheet⟩ [])] [⟨⟨0, 0⟩, ⟨1, 0⟩⟩] ["USD"] [])
                  [⟨⟨0, 0⟩, ⟨1, 0⟩⟩] ["USD"] ch ("" ++ indentToken))
              ++ (if (Account.mk "assets" ⟨.normalDebit, .balanceSheet⟩ []).children.any (fun ch => ch.info.statement == StatementKind.balanceSheet)
                then [SCell.str (replaceFirst ("" ++ indentToken) indentToken ""
                      ++ "TOTAL: " ++ (Account.mk "assets" ⟨.normalDebit, .balanceSheet⟩ []).name)
                    :: [(⟨⟨0, 0⟩, ⟨1, 0⟩⟩ : Period)].flatMap (fun p => ["USD"].map (fun c =>
                      SCell.num (totalAccountOfBS (Account.mk "assets" ⟨.normalDebit, .balanceSheet⟩ []) p c []
                        + totalSubaccountOfBS (Account.mk "assets" ⟨.normalDebit, .balanceSheet⟩ []) p c [])))]
                else []))) :=
  claim_C7_amended [(Account.mk "assets" ⟨.normalDebit, .balanceSheet⟩ [])] [⟨⟨0, 0⟩, ⟨1, 0⟩⟩] ["USD"] [] (Account.mk "assets" ⟨.normalDebit, .balanceSheet⟩ []) "" (by decide)

/-- JS `String.prototype.trimStart`. -/
def trimStartJS (s : String) : String :=
  ⟨s.data.dropWhile (fun c => c.isWhitespace)⟩

/-- `LiabilityTotals` of `createMonthlyBudgetReviewTable`
(`src/index.ts` lines 573-576; field names keep the source's spelling). -/
structure LiabilityTotals where
  totalBorowed : Int
  totalPayed : Int
deriving DecidableEq, Repr

/-- One account's budget-review totals map. -/
structure AccountLiabTotals where
  account : Account
  totals : List (Period × List (Currency × LiabilityTotals))

/-- The sign reduction of the budget-review totals (`src/index.ts`
lines 604-618 and 660-674): both normality branches of the source are
textually identical, so the account's kind is irrelevant — a credit
posting adds, anything else subtracts. -/
def reduceEntriesTotalBudget (total : Int) (entry : Entry) : Int :=
  match entry.type with
  | .credit => total + entry.value
  | .debit => total - entry.value

/-- One (account, period, currency) cell of `totalByAccountOnTerm`
(`src/index.ts` lines 588-621): postings with a `term`, bucketed by the
term date; `totalBorowed` from the credit postings, `totalPayed` from
the debit postings. -/
def onTermCell (account : Account) (period : Period) (currency : Currency)
    (entries : List Entry) : LiabilityTotals :=
  LiabilityTotals.mk
    ((entries.filter (fun e => match e.term with
      | some t => e.account == account && e.type == EntryType.credit
          && isDateWithinPeriod t period && e.currency == currency
      | none => false)).foldl reduceEntriesTotalBudget 0)
    ((entries.filter (fun e => match e.term with
      | some t => e.account == account && e.type == EntryType.debit
          && isDateWithinPeriod t period && e.currency == currency
      | none => false)).foldl reduceEntriesTotalBudget 0)

/-- One (account, period, currency) cell of `totalByAccount`
(`src/index.ts` lines 644-677): postings without a `term`, bucketed by
posting date. -/
def executedCell (account : Account) (period : Period) (currency : Currency)
    (entries : List Entry) : LiabilityTotals :=
  LiabilityTotals.mk
    ((entries.filter (fun e => match e.term with
      | some _ => false
      | none => e.account == account && e.type == EntryType.credit
          && isDateWithinPeriod e.date period && e.currency == currency)).foldl
      reduceEntriesTotalBudget 0)
    ((entries.filter (fun e => match e.term with
      | some _ => false
      | none => e.account == account && e.type == EntryType.debit
          && isDateWithinPeriod e.date period && e.currency == currency)).foldl
      reduceEntriesTotalBudget 0)

/-- The per-account `byPeriod` map of `totalByAccountOnTerm`
(`src/index.ts` lines 583-625). -/
def liabilityTotalsOnTermFor (account : Account) (budgetPeriods : List Period)
    (currencies : List Currency) (entries : List Entry) :
    List (Period × List (Currency × LiabilityTotals)) :=
  budgetPeriods.map (fun period =>
    (period, currencies.map (fun currency =>
      (currency, onTermCell account period currency entries))))

/-- The per-account `byPeriod` map of `totalByAccount`
(`src/index.ts` lines 639-681). -/
def liabilityTotalsFor (account : Account) (budgetPeriods : List Period)
    (currencies : List Currency) (entries : List Entry) :
    List (Period × List (Currency × LiabilityTotals)) :=
  budgetPeriods.map (fun period =>
    (period, currencies.map (fun currency =>
      (currency, executedCell account period currency entries))))

/-- `totalByAccountOnTerm` (`src/index.ts` lines 578-632). -/
def totalByAccountOnTerm (accounts : List Account) (budgetPeriods : List Period)
    (currencies : List Currency) (entries : List Entry) : List AccountLiabTotals :=
  accounts.foldl (fun list account =>
    AccountTraversalReduce account list
      (fun a l => l ++ [⟨a, liabilityTotalsOnTermFor a budgetPeriods currencies entries⟩])
      (fun _ l => l)) []

/-- `totalByAccount` (`src/index.ts` lines 634-688). -/
def totalByAccount (accounts : List Account) (budgetPeriods : List Period)
    (currencies : List Currency) (entries : List Entry) : List AccountLiabTotals :=
  accounts.foldl (fun list account =>
    AccountTraversalReduce account list
      (fun a l => l ++ [⟨a, liabilityTotalsFor a budgetPeriods currencies entries⟩])
      (fun _ l => l)) []

/-- The per-period cells of a liability row (`src/index.ts` lines
711-721): `Budgeted, Borrowed, Target, Activity, Available`, reading
target/activity from the hardcoded `'BRL'` bucket; `none` models the
`TypeError` of the unguarded `get('BRL')!` when the bucket is absent. -/
def liabilityPeriodCells (budgetByPeriod : List (Period × Int))
    (executedTotals : List (Period × List (Currency × LiabilityTotals))) :
    List Period → Option (List SCell)
  | [] => some []
  | period :: rest =>
    match List.lookup period budgetByPeriod with
    | some value =>
      match (List.lookup period executedTotals).bind
          (fun byCur => List.lookup "BRL" byCur) with
      | some lt =>
        (liabilityPeriodCells budgetByPeriod executedTotals rest).map (fun cells =>
          [SCell.num value, SCell.num 0, SCell.num lt.totalBorowed,
            SCell.num (-lt.totalPayed), SCell.num (value + 0 - (-lt.totalPayed))] ++ cells)
      | none => none
    | none =>
      (liabilityPeriodCells budgetByPeriod executedTotals rest).map (fun cells =>
        SCell.str "period undefined" :: cells)

/-- The per-period cells of an expenses row (`src/index.ts` lines
749-760), reading borrowed/activity from the hardcoded `'EUR'` bucket. -/
def expensePeriodCells (budgetByPeriod : List (Period × Int))
    (onTermTotals executedTotals : List (Period × List (Currency × LiabilityTotals))) :
    List Period → Option (List SCell)
  | [] => some []
  | period :: rest =>
    match List.lookup period budgetByPeriod with
    | some value =>
      match (List.lookup period onTermTotals).bind
          (fun byCur => List.lookup "EUR" byCur),
        (List.lookup period executedTotals).bind
          (fun byCur => List.lookup "EUR" byCur) with
      | some ltOnTerm, some ltExec =>
        (expensePeriodCells budgetByPeriod onTermTotals executedTotals rest).map (fun cells =>
          [SCell.num value, SCell.num ltOnTerm.totalBorowed, SCell.num 0,
            SCell.num (ltOnTerm.totalBorowed + ltExec.totalPayed),
            SCell.num (value + ltOnTerm.totalBorowed
              - (ltOnTerm.totalBorowed + ltExec.totalPayed))] ++ cells)
      | _, _ => none
    | none =>
      (expensePeriodCells budgetByPeriod onTermTotals executedTotals rest).map (fun cells =>
        SCell.str "period undefined" :: cells)

mutual
/-- The liabilities traversal of `createMonthlyBudgetReviewTable`
(`src/index.ts` lines 700-732): one row per account — indented name,
then per-period cells or `'account undefined'` when the account has no
budget row or no totals entry. -/
def liabilityRows (budgetByAccount : List (Account × List (Period × Int)))
    (onTerm : List AccountLiabTotals) (budgetPeriods : List Period) :
    Account → String → Option (List (List SCell))
  | .mk n i children, prefx =>
    (match List.lookup (Account.mk n i children) budgetByAccount,
        onTerm.find? (fun (x : AccountLiabTotals) => x.account == Account.mk n i children) with
      | some budgetByPeriod, some executed =>
        (liabilityPeriodCells budgetByPeriod executed.totals budgetPeriods).map
          (fun cells => SCell.str (prefx ++ n) :: cells)
      | _, _ => some [SCell.str (prefx ++ n), SCell.str "account undefined"]).bind
      (fun row =>
        (liabilityRowsList budgetByAccount onTerm budgetPeriods children
          (prefx ++ indentToken)).map (fun childRows => row :: childRows))
termination_by structural a _ => a

/-- Sibling traversal of `liabilityRows`. -/
def liabilityRowsList (budgetByAccount : List (Account × List (Period × Int)))
    (onTerm : List AccountLiabTotals) (budgetPeriods : List Period) :
    List Account → String → Option (List (List SCell))
  | [], _ => some []
  | c :: rest, prefx =>
    (liabilityRows budgetByAccount onTerm budgetPeriods c prefx).bind (fun rows =>
      (liabilityRowsList budgetByAccount onTerm budgetPeriods rest prefx).map
        (fun more => rows ++ more))
termination_by structural l _ => l
end

mutual
/-- The expenses traversal of `createMonthlyBudgetReviewTable`
(`src/index.ts` lines 733-771). -/
def expenseRows (budgetByAccount : List (Account × List (Period × Int)))
    (onTerm executed : List AccountLiabTotals) (budgetPeriods : List Period) :
    Account → String → Option (List (List SCell))
  | .mk n i children, prefx =>
    (match List.lookup (Account.mk n i children) budgetByAccount,
        onTerm.find? (fun (x : AccountLiabTotals) => x.account == Account.mk n i children),
        executed.find? (fun (x : AccountLiabTotals) => x.account == Account.mk n i children) with
      | some budgetByPeriod, some eOnTerm, some eExec =>
        (expensePeriodCells budgetByPeriod eOnTerm.totals eExec.totals budgetPeriods).map
          (fun cells => SCell.str (prefx ++ n) :: cells)
      | _, _, _ => some [SCell.str (prefx ++ n), SCell.str "account undefined"]).bind
      (fun row =>
        (expenseRowsList budgetByAccount onTerm executed budgetPeriods children
          (prefx ++ indentToken)).map (fun childRows => row :: childRows))
termination_by structural a _ => a

/-- Sibling traversal of `expenseRows`. -/
def expenseRowsList (budgetByAccount : List (Account × List (Period × Int)))
    (onTerm executed : List AccountLiabTotals) (budgetPeriods : List Period) :
    List Account → String → Option (List (List SCell))
  | [], _ => some []
  | c :: rest, prefx =>
    (expenseRows budgetByAccount onTerm executed budgetPeriods c prefx).bind (fun rows =>
      (expenseRowsList budgetByAccount onTerm executed budgetPeriods rest prefx).map
        (fun more => rows ++ more))
termination_by structural l _ => l
end

/-- The body of `createMonthlyBudgetReviewTable` after the account tree
is built: budget-period and budget-map parsing, the two totals tables,
the two header rows and the liabilities and expenses traversals. -/
def budgetReviewBody (pd : String → DateJS) (pn : String → Int)
    (accountTree : AccountTree) (currencies : List Currency)
    (budgetTable : SheetsTable) (ledgerTables : List (List (List String))) :
    Option (List (List SCell)) :=
  let rawEntries := parseLedgerTablesFromSheets accountTree pd pn ledgerTables
  let entries := processRawEntries rawEntries
  let filteredBudget := budgetTable.filter nonEmptyRowFilter
  let budgetPeriods : List Period := match filteredBudget with
    | [] => []
    | hdr :: _ =>
      ((hdr.filter nonEmptyCellFilter).drop 1).map (fun m => ⟨pd m, addOneMonth (pd m)⟩)
  let budgetRows : List (List String) := match filteredBudget with
    | [] => []
    | _ :: rest => rest
  let budgetByAccount : List (Account × List (Period × Int)) :=
    budgetRows.foldl (fun acc row =>
      match row.head? with
      | none => acc
      | some dirtyAccountName =>
        match findAccountInAccountTree accountTree (trimStartJS dirtyAccountName) with
        | none => acc
        | some account =>
          (account, budgetPeriods.enum.map (fun iq =>
            (iq.2, match row[iq.1 + 1]? with
              | some v => pn v
              | none => 0))) :: acc) []
  let liabilitiesAccounts := accountTree.rootAccounts.filter
    (fun a => a.name == "liabilities")
  let expensesAccounts := accountTree.rootAccounts.filter
    (fun a => a.name == "expenses")
  let onTerm := totalByAccountOnTerm (liabilitiesAccounts ++ expensesAccounts)
    budgetPeriods currencies entries
  let executed := totalByAccount (liabilitiesAccounts ++ expensesAccounts)
    budgetPeriods currencies entries
  let header1 : List SCell := SCell.str "Ready to Assign"
    :: budgetPeriods.flatMap (fun p =>
      [SCell.date p.begin, SCell.date p.begin, SCell.date p.begin,
        SCell.date p.begin, SCell.date p.begin])
  let header2 : List SCell := SCell.num 0
    :: budgetPeriods.flatMap (fun _ =>
      [SCell.str "Budgeted", SCell.str "Borrowed", SCell.str "Target",
        SCell.str "Activity", SCell.str "Available"])
  (liabilityRowsList budgetByAccount onTerm budgetPeriods liabilitiesAccounts "").bind
    (fun liabRows =>
      (expenseRowsList budgetByAccount onTerm executed budgetPeriods
        expensesAccounts "").map (fun expRows =>
        header1 :: header2 :: (liabRows ++ expRows)))

/-- `createMonthlyBudgetReviewTable` (`src/index.ts` lines 520-773).
`pd`/`pn` are the host's `new Date` / unary `+` parsers; `none` models
the `TypeError` thrown by an unguarded non-null assertion (the missing
`Retained Earnings` node, or a `get('BRL')!` / `get('EUR')!` on a
currency bucket the currencies table does not provide).  The budget map
is keyed by account with latest-insertion-wins (JS `Map.set`), rendered
by prepending. -/
def createMonthlyBudgetReviewTable (pd : String → DateJS) (pn : String → Int)
    (accountTypes accountTable currenciesTable budgetTable : SheetsTable)
    (ledgerTables : List (List (List String))) : Option (List (List SCell)) :=
  match makeAccountTree accountTable accountTypes with
  | none => none
  | some accountTree =>
    budgetReviewBody pd pn accountTree (makeCurrencies currenciesTable)
      budgetTable ledgerTables

theorem lookup_map_graph2 {α β : Type} [BEq α] (f : α → β) (l : List α) (x : α) :
    List.lookup x (l.map (fun a => (a, f a))) = (l.find? (fun a => x == a)).map f := by
  induction l with
  | nil => rfl
  | cons hd tl ih =>
    simp only [List.map_cons, List.lookup, List.find?]
    cases h : x == hd with
    | true => rfl
    | false => exact ih

theorem lookup_bucket (bps : List Period) (cs : List Currency)
    (v : Period → Currency → LiabilityTotals) (cur0 : Currency) (h : cur0 ∈ cs)
    (p : Period) :
    (List.lookup p (bps.map (fun q => (q, cs.map (fun c => (c, v q c)))))).bind
        (fun byCur => List.lookup cur0 byCur)
      = (bps.find? (fun q => p == q)).map (fun q => v q cur0) := by
  rw [lookup_map_graph2 (fun q => cs.map (fun c => (c, v q c))) bps p]
  cases hf : bps.find? (fun q => p == q) with
  | none => rfl
  | some q =>
    simp only [Option.map_some', Option.some_bind]
    rw [lookup_map_graph (fun c => v q c) cs cur0 h]

theorem liabilityPeriodCells_congr (budgetByPeriod : List (Period × Int))
    (t1 t2 : List (Period × List (Currency × LiabilityTotals)))
    (h : ∀ p, (List.lookup p t1).bind (fun byCur => List.lookup "BRL" byCur)
      = (List.lookup p t2).bind (fun byCur => List.lookup "BRL" byCur)) :
    ∀ periods, liabilityPeriodCells budgetByPeriod t1 periods
      = liabilityPeriodCells budgetByPeriod t2 periods := by
  intro periods
  induction periods with
  | nil => rfl
  | cons p rest ih =>
    simp only [liabilityPeriodCells]
    rw [h p, ih]

theorem expensePeriodCells_congr (budgetByPeriod : List (Period × Int))
    (o1 o2 e1 e2 : List (Period × List (Currency × LiabilityTotals)))
    (ho : ∀ p, (List.lookup p o1).bind (fun byCur => List.lookup "EUR" byCur)
      = (List.lookup p o2).bind (fun byCur => List.lookup "EUR" byCur))
    (he : ∀ p, (List.lookup p e1).bind (fun byCur => List.lookup "EUR" byCur)
      = (List.lookup p e2).bind (fun byCur => List.lookup "EUR" byCur)) :
    ∀ periods, expensePeriodCells budgetByPeriod o1 e1 periods
      = expensePeriodCells budgetByPeriod o2 e2 periods := by
  intro periods
  induction periods with
  | nil => rfl
  | cons p rest ih =>
    simp only [expensePeriodCells]
    rw [ho p, he p, ih]

theorem find?_liab_graph (f : Account → List (Period × List (Currency × LiabilityTotals)))
    (l : List Account) (a : Account) :
    (l.map (fun b => AccountLiabTotals.mk b (f b))).find?
        (fun (x : AccountLiabTotals) => x.account == a)
      = (l.find? (fun b => b == a)).map (fun b => AccountLiabTotals.mk b (f b)) := by
  induction l with
  | nil => rfl
  | cons hd tl ih =>
    simp only [List.map_cons, List.find?]
    cases h : hd == a with
    | true => rfl
    | false => exact ih

theorem totalByAccountOnTerm_eq (accounts : List Account) (bps : List Period)
    (cs : List Currency) (entries : List Entry) :
    totalByAccountOnTerm accounts bps cs entries
      = (preOrderListForest accounts).map
          (fun a => AccountLiabTotals.mk a (liabilityTotalsOnTermFor a bps cs entries)) := by
  unfold totalByAccountOnTerm
  exact AccountTraversalReduce_foldl _ accounts []

theorem totalByAccount_eq (accounts : List Account) (bps : List Period)
    (cs : List Currency) (entries : List Entry) :
    totalByAccount accounts bps cs entries
      = (preOrderListForest accounts).map
          (fun a => AccountLiabTotals.mk a (liabilityTotalsFor a bps cs entries)) := by
  unfold totalByAccount
  exact AccountTraversalReduce_foldl _ accounts []

theorem liabilityRowsList_congr_aux (B : List (Account × List (Period × Int)))
    (o1 o2 : List AccountLiabTotals) (bps : List Period) :
    ∀ (l : List Account) (prefx : String),
      (∀ c ∈ l, ∀ pfx, liabilityRows B o1 bps c pfx = liabilityRows B o2 bps c pfx) →
      liabilityRowsList B o1 bps l prefx = liabilityRowsList B o2 bps l prefx := by
  intro l
  induction l with
  | nil => intro _ _; rfl
  | cons c rest ih =>
    intro prefx hmem
    simp only [liabilityRowsList]
    rw [hmem c (List.mem_cons_self c rest) prefx,
      ih prefx (fun x hx => hmem x (List.mem_cons_of_mem c hx))]

theorem liabilityRows_congr (B : List (Account × List (Period × Int)))
    (bps : List Period) (forest : List Account) (c1 c2 : List Currency)
    (entries : List Entry) (h1 : "BRL" ∈ c1) (h2 : "BRL" ∈ c2) :
    ∀ (a : Account) (prefx : String),
      liabilityRows B (forest.map (fun b =>
        AccountLiabTotals.mk b (liabilityTotalsOnTermFor b bps c1 entries))) bps a prefx
      = liabilityRows B (forest.map (fun b =>
        AccountLiabTotals.mk b (liabilityTotalsOnTermFor b bps c2 entries))) bps a prefx := by
  intro a
  induction a using Account.inductionOn with
  | _ n i ch ih =>
    intro prefx
    simp only [liabilityRows]
    rw [find?_liab_graph (fun b => liabilityTotalsOnTermFor b bps c1 entries) forest
        (Account.mk n i ch),
      find?_liab_graph (fun b => liabilityTotalsOnTermFor b bps c2 entries) forest
        (Account.mk n i ch)]
    have hch : liabilityRowsList B (forest.map (fun b =>
          AccountLiabTotals.mk b (liabilityTotalsOnTermFor b bps c1 entries))) bps ch
          (prefx ++ indentToken)
        = liabilityRowsList B (forest.map (fun b =>
          AccountLiabTotals.mk b (liabilityTotalsOnTermFor b bps c2 entries))) bps ch
          (prefx ++ indentToken) :=
      liabilityRowsList_congr_aux B _ _ bps ch (prefx ++ indentToken)
        (fun x hx pfx => ih x hx pfx)
    rw [hch]
    cases hf : forest.find? (fun b => b == Account.mk n i ch) with
    | none => rfl
    | some q =>
      simp only [Option.map_some']
      cases hB : List.lookup (Account.mk n i ch) B with
      | none => rfl
      | some bp =>
        have hcells : liabilityPeriodCells bp (liabilityTotalsOnTermFor q bps c1 entries) bps
            = liabilityPeriodCells bp (liabilityTotalsOnTermFor q bps c2 entries) bps :=
          liabilityPeriodCells_congr bp _ _ (fun p =>
            (lookup_bucket bps c1 (fun period currency =>
              onTermCell q period currency entries) "BRL" h1 p).trans
            (lookup_bucket bps c2 (fun period currency =>
              onTermCell q period currency entries) "BRL" h2 p).symm) bps
        simp only []
        rw [hcells]

theorem expenseRowsList_congr_aux (B : List (Account × List (Period × Int)))
    (o1 o2 e1 e2 : List AccountLiabTotals) (bps : List Period) :
    ∀ (l : List Account) (prefx : String),
      (∀ c ∈ l, ∀ pfx, expenseRows B o1 e1 bps c pfx = expenseRows B o2 e2 bps c pfx) →
      expenseRowsList B o1 e1 bps l prefx = expenseRowsList B o2 e2 bps l prefx := by
  intro l
  induction l with
  | nil => intro _ _; rfl
  | cons c rest ih =>
    intro prefx hmem
    simp only [expenseRowsList]
    rw [hmem c (List.mem_cons_self c rest) prefx,
      ih prefx (fun x hx => hmem x (List.mem_cons_of_mem c hx))]

theorem expenseRows_congr (B : List (Account × List (Period × Int)))
    (bps : List Period) (forest : List Account) (c1 c2 : List Currency)
    (entries : List Entry) (h1 : "EUR" ∈ c1) (h2 : "EUR" ∈ c2) :
    ∀ (a : Account) (prefx : String),
      expenseRows B
        (forest.map (fun b =>
          AccountLiabTotals.mk b (liabilityTotalsOnTermFor b bps c1 entries)))
        (forest.map (fun b =>
          AccountLiabTotals.mk b (liabilityTotalsFor b bps c1 entries))) bps a prefx
      = expenseRows B
        (forest.map (fun b =>
          AccountLiabTotals.mk b (liabilityTotalsOnTermFor b bps c2 entries)))
        (forest.map (fun b =>
          AccountLiabTotals.mk b (liabilityTotalsFor b bps c2 entries))) bps a prefx := by
  intro a
  induction a using Account.inductionOn with
  | _ n i ch ih =>
    intro prefx
    simp only [expenseRows]
    rw [find?_liab_graph (fun b => liabilityTotalsOnTermFor b bps c1 entries) forest
        (Account.mk n i ch),
      find?_liab_graph (fun b => liabilityTotalsOnTermFor b bps c2 entries) forest
        (Account.mk n i ch),
      find?_liab_graph (fun b => liabilityTotalsFor b bps c1 entries) forest
        (Account.mk n i ch),
      find?_liab_graph (fun b => liabilityTotalsFor b bps c2 entries) forest
        (Account.mk n i ch)]
    have hch : expenseRowsList B (forest.map (fun b =>
          AccountLiabTotals.mk b (liabilityTotalsOnTermFor b bps c1 entries)))
          (forest.map (fun b =>
            AccountLiabTotals.mk b (liabilityTotalsFor b bps c1 entries))) bps ch
          (prefx ++ indentToken)
        = expenseRowsList B (forest.map (fun b =>
          AccountLiabTotals.mk b (liabilityTotalsOnTermFor b bps c2 entries)))
          (forest.map (fun b =>
            AccountLiabTotals.mk b (liabilityTotalsFor b bps c2 entries))) bps ch
          (prefx ++ indentToken) :=
      expenseRowsList_congr_aux B _ _ _ _ bps ch (prefx ++ indentToken)
        (fun x hx pfx => ih x hx pfx)
    rw [hch]
    cases hf : forest.find? (fun b => b == Account.mk n i ch) with
    | none => rfl
    | some q =>
      simp only [Option.map_some']
      cases hB : List.lookup (Account.mk n i ch) B with
      | none => rfl
      | some bp =>
        have hcells : expensePeriodCells bp (liabilityTotalsOnTermFor q bps c1 entries)
              (liabilityTotalsFor q bps c1 entries) bps
            = expensePeriodCells bp (liabilityTotalsOnTermFor q bps c2 entries)
              (liabilityTotalsFor q bps c2 entries) bps :=
          expensePeriodCells_congr bp _ _ _ _
            (fun p =>
              (lookup_bucket bps c1 (fun period currency =>
                onTermCell q period currency entries) "EUR" h1 p).trans
              (lookup_bucket bps c2 (fun period currency =>
                onTermCell q period currency entries) "EUR" h2 p).symm)
            (fun p =>
              (lookup_bucket bps c1 (fun period currency =>
                executedCell q period currency entries) "EUR" h1 p).trans
              (lookup_bucket bps c2 (fun period currency =>
                executedCell q period currency entries) "EUR" h2 p).symm) bps
        simp only []
        rw [hcells]

theorem budgetReviewBody_congr (pd : String → DateJS) (pn : String → Int)
    (accountTree : AccountTree) (budgetTable : SheetsTable)
    (ledgerTables : List (List (List String))) (c1 c2 : List Currency)
    (hB1 : "BRL" ∈ c1) (hE1 : "EUR" ∈ c1) (hB2 : "BRL" ∈ c2) (hE2 : "EUR" ∈ c2) :
    budgetReviewBody pd pn accountTree c1 budgetTable ledgerTables
      = budgetReviewBody pd pn accountTree c2 budgetTable ledgerTables := by
  simp only [budgetReviewBody]
  rw [totalByAccountOnTerm_eq, totalByAccountOnTerm_eq, totalByAccount_eq, totalByAccount_eq]
  rw [liabilityRowsList_congr_aux _ _ _ _ _ _
    (fun a _ pfx => liabilityRows_congr _ _ _ c1 c2 _ hB1 hB2 a pfx)]
  refine congrArg _ (funext (fun liabRows => ?_))
  rw [expenseRowsList_congr_aux _ _ _ _ _ _ _ _
    (fun a _ pfx => expenseRows_congr _ _ _ c1 c2 _ hE1 hE2 a pfx)]

/-- Claim C9: `createMonthlyBudgetReviewTable` reads the per-period
target/activity totals for liability accounts exclusively from the
hardcoded `'BRL'` currency bucket and the borrowed/activity totals for
expense accounts exclusively from the hardcoded `'EUR'` bucket: the
output is invariant under any change of the currencies table that keeps
`'BRL'` and `'EUR'` listed; and when `'BRL'` (here) is not among the
supplied currencies, the unguarded `get('BRL')!` lookup has no value,
so the whole report fails (`none`). -/
theorem claim_C9 :
    (∀ (pd : String → DateJS) (pn : String → Int)
      (accountTypes accountTable c1 c2 budgetTable : SheetsTable)
      (ledgerTables : List (List (List String))),
      "BRL" ∈ makeCurrencies c1 → "EUR" ∈ makeCurrencies c1 →
      "BRL" ∈ makeCurrencies c2 → "EUR" ∈ makeCurrencies c2 →
      createMonthlyBudgetReviewTable pd pn accountTypes accountTable c1
          budgetTable ledgerTables
        = createMonthlyBudgetReviewTable pd pn accountTypes accountTable c2
          budgetTable ledgerTables) ∧
    createMonthlyBudgetReviewTable (fun _ => ⟨0, 0⟩) (fun _ => 10)
        [["equity", "Credit", ""], ["liabilities", "Credit", ""]] []
        [["EUR"]] [["B", "2024-01"], ["liabilities", "10"]] [] = none := by
  constructor
  · intro pd pn accountTypes accountTable c1 c2 budgetTable ledgerTables hB1 hE1 hB2 hE2
    unfold createMonthlyBudgetReviewTable
    cases makeAccountTree accountTable accountTypes with
    | none => rfl
    | some accountTree =>
      exact budgetReviewBody_congr pd pn accountTree budgetTable ledgerTables
        (makeCurrencies c1) (makeCurrencies c2) hB1 hE1 hB2 hE2
  · decide

theorem claim_C9_witness :
    ("BRL" : Currency) ∈ makeCurrencies [["BRL"], ["EUR"]] ∧
    ("EUR" : Currency) ∈ makeCurrencies [["BRL"], ["EUR"]] ∧
    ("BRL" : Currency) ∈ makeCurrencies [["EUR"], ["USD"], ["BRL"]] ∧
    ("EUR" : Currency) ∈ makeCurrencies [["EUR"], ["USD"], ["BRL"]] ∧
    createMonthlyBudgetReviewTable (fun _ => ⟨0, 0⟩) (fun _ => 10)
        [["equity", "Credit", ""], ["liabilities", "Credit", ""]] []
        [["BRL"], ["EUR"]] [["B", "2024-01"], ["liabilities", "10"]] []
      = createMonthlyBudgetReviewTable (fun _ => ⟨0, 0⟩) (fun _ => 10)
        [["equity", "Credit", ""], ["liabilities", "Credit", ""]] []
        [["EUR"], ["USD"], ["BRL"]] [["B", "2024-01"], ["liabilities", "10"]] [] :=
  ⟨by decide, by decide, by decide, by decide,
    claim_C9.1 (fun _ => ⟨0, 0⟩) (fun _ => 10)
      [["equity", "Credit", ""], ["liabilities", "Credit", ""]] []
      [["BRL"], ["EUR"]] [["EUR"], ["USD"], ["BRL"]]
      [["B", "2024-01"], ["liabilities", "10"]] []
      (by decide) (by decide) (by decide) (by decide)⟩
